import Mathlib

/-!
redirector.js: rule matching and the redirect decision

A shallow embedding of `src/redirector.js`.

* JavaScript strings are sequences of UTF-16 code units (`JSString`); the
  patterns of the file are created without flags, so the regular expression
  engine works on single code units.
* `undefined` is `none`: a capture group that did not participate, a missing
  `host` header, a missing argument, the scheme of an unlisted port.
* `String.prototype.match` with a string pattern and no flags is
  `RegExpBuiltinExec` from index 0 of a freshly created expression.  The
  backtracking matcher of ECMA-262 is written as the list of the end states it
  would try, in its order of priority; the state it returns is the head of
  that list.
* `console.log` and `debug_log` lines do not influence any value and are left
  out.
* The patterns are kept as syntax trees; `RegExpCreate` reads a tree from the
  text of a pattern, and the trees used below are the ones it reads from the
  texts in the source (`RegExpCreate_repo_regex` and its siblings).
* A response is what `res.writeHead` and `res.end()` are called with; the
  checks Node makes on header values are not part of the model.
-/

namespace Redirector

/-! ## Strings and values -/

/-- A JavaScript string, as its UTF-16 code units. -/
abbrev JSString := List Nat

/-- The code units of a literal of the source (all of them are ASCII). -/
def lit (s : String) : JSString := s.toList.map Char.toNat

/-- Substitution `${v}` of a template literal: `undefined` prints as the text
`undefined`, a string as itself. -/
def template (v : Option JSString) : JSString :=
  match v with
  | some s => s
  | none => lit "undefined"

/-- The expression `v || ''` for `v` a string or `undefined`: both `undefined`
and the empty string are falsy. -/
def orEmpty (v : Option JSString) : Option JSString :=
  match v with
  | none => some []
  | some [] => some []
  | some (c :: cs) => some (c :: cs)

/-! ## Regular expressions (no flags) -/

/-- The pattern constructs used by the rules: the syntax tree of a pattern,
capture groups numbered from 1 in the order of their opening parenthesis. -/
inductive Regex where
  | empty : Regex
  | char (c : Nat) : Regex
  | dot : Regex
  | cls (invert : Bool) (ranges : List (Nat × Nat)) : Regex
  | bol : Regex
  | eol : Regex
  | seq (a b : Regex) : Regex
  | alt (a b : Regex) : Regex
  | group (idx : Nat) (r : Regex) : Regex
  | rep (min : Nat) (max : Option Nat) (greedy : Bool) (r : Regex) : Regex
  deriving Repr, DecidableEq

/-- The numbers of the capture groups inside a pattern. -/
def Regex.groups : Regex → List Nat
  | .seq a b => a.groups ++ b.groups
  | .alt a b => a.groups ++ b.groups
  | .group idx r => idx :: r.groups
  | .rep _ _ _ r => r.groups
  | _ => []

/-- Matcher state of ECMA-262: the input from `endIndex` on, and the captures. -/
structure State where
  rest : JSString
  captures : List (Option JSString)
  deriving Repr, DecidableEq

/-- LineTerminator code units: LF, CR, LS, PS. -/
def isLineTerminator (c : Nat) : Bool :=
  c == 0x0A || c == 0x0D || c == 0x2028 || c == 0x2029

/-- Membership in a character class `[...]` or `[^...]`. -/
def classMatches (invert : Bool) (ranges : List (Nat × Nat)) (c : Nat) : Bool :=
  (ranges.any fun r => decide (r.1 ≤ c) && decide (c ≤ r.2)) != invert

/-- CharacterSetMatcher: consume one code unit that satisfies `p`. -/
def CharacterSetMatcher (p : Nat → Bool) (x : State) : List State :=
  match x.rest with
  | [] => []
  | c :: cs => if p c then [{ x with rest := cs }] else []

/-- Step 3 of RepeatMatcher: the captures of the groups inside the repeated
atom are reset to `undefined` at the start of every iteration. -/
def clearCaptures (parens : List Nat) (captures : List (Option JSString)) :
    List (Option JSString) :=
  parens.foldl (fun caps idx => caps.set (idx - 1) none) captures

/-- RepeatMatcher of ECMA-262 for the atom matcher `m`.  An iteration that is
not required (`min = 0`) and consumes nothing is rejected.  Every recursive call
either lowers `min` or shortens the rest of the input, so the fuel
`rest.length + min + 1` given by `matcher` is never used up. -/
def RepeatMatcher (m : State → List State) (parens : List Nat) (greedy : Bool) :
    Nat → Nat → Option Nat → State → List State
  | 0, _, max, x => if max = some 0 then [x] else []
  | fuel + 1, min, max, x =>
    if max = some 0 then [x] else
    let xr : State := { x with captures := clearCaptures parens x.captures }
    let iter := ((m xr).filter fun y => !(min == 0 && y.rest.length == x.rest.length)).flatMap
      fun y => RepeatMatcher m parens greedy fuel (min - 1) (max.map fun k => k - 1) y
    if min ≠ 0 then iter
    else if greedy then iter ++ [x]
    else x :: iter

/-- The end states the backtracking matcher of pattern `r` tries from state `x`,
in order of priority.  `inputLength` is the length of the whole input: the
expression has no `m` flag, so `^` holds at index 0 only and `$` at the end of
the input only. -/
def matcher (inputLength : Nat) : Regex → State → List State
  | .empty, x => [x]
  | .char c, x => CharacterSetMatcher (fun d => d == c) x
  | .dot, x => CharacterSetMatcher (fun d => !isLineTerminator d) x
  | .cls invert ranges, x => CharacterSetMatcher (classMatches invert ranges) x
  | .bol, x => if x.rest.length = inputLength then [x] else []
  | .eol, x => if x.rest.length = 0 then [x] else []
  | .seq a b, x => (matcher inputLength a x).flatMap (matcher inputLength b)
  | .alt a b, x => matcher inputLength a x ++ matcher inputLength b x
  | .group idx r, x =>
    (matcher inputLength r x).map fun y =>
      { y with captures :=
          y.captures.set (idx - 1) (some (x.rest.take (x.rest.length - y.rest.length))) }
  | .rep min max greedy r, x =>
    RepeatMatcher (matcher inputLength r) r.groups greedy (x.rest.length + min + 1) min max x

/-- One attempt of RegExpBuiltinExec at the index where `rest` starts: the
result array `[matched text, capture 1, ..., capture n]`, or failure. -/
def matchAt (r : Regex) (inputLength : Nat) (rest : JSString) :
    Option (List (Option JSString)) :=
  match (matcher inputLength r ⟨rest, List.replicate r.groups.length none⟩).head? with
  | some y => some (some (rest.take (rest.length - y.rest.length)) :: y.captures)
  | none => none

/-- The loop of RegExpBuiltinExec (not global, not sticky): try every index from
`lastIndex` up to and including the end of the input. -/
def execFrom (r : Regex) (inputLength : Nat) : JSString → Option (List (Option JSString))
  | [] => matchAt r inputLength []
  | c :: cs =>
    match matchAt r inputLength (c :: cs) with
    | some a => some a
    | none => execFrom r inputLength cs

/-- The call `target.match(regex)` for a pattern without flags: the array of the
first match, or `null` (`none`). -/
def String_match (target : JSString) (regex : Regex) : Option (List (Option JSString)) :=
  execFrom regex target.length target

/-! ## Configuration section -/

/-- The configured `PORT`. -/
def PORT : Nat := 443

/-- The configured `STATUS_CODE`. -/
def STATUS_CODE : Nat := 307

/-- A synthesis function `map_fn`, called positionally with the captures. -/
abbrev MapFn := List (Option JSString) → JSString

/-- A positional parameter of a called function: `undefined` when the argument
is missing. -/
def param (args : List (Option JSString)) (i : Nat) : Option JSString :=
  match args.get? i with
  | some v => v
  | none => none

/-- One code unit of a pattern written as a character. -/
def ch (c : Char) : Regex := .char c.toNat

/-- A sequence of pattern characters, the last followed by `r`. -/
def chars (s : String) (r : Regex) : Regex :=
  s.toList.foldr (fun c acc => .seq (ch c) acc) r

/-- The class `[^/]`. -/
def notSlash : Regex := .cls true [(47, 47)]

/-- The quantifier `+` (greedy). -/
def plus (r : Regex) : Regex := .rep 1 none true r

/-- The quantifier `?` (greedy). -/
def opt (r : Regex) : Regex := .rep 0 (some 1) true r

/-- Pattern of the first rule:
`^(https?)://(github12321.com)/([^/]+)/([^/]+.git/?)(.+)?$`.
The dots before `com` and before `git` are not escaped: each stands for any
code unit that is not a line terminator. -/
def repo_regex : Regex :=
  .seq .bol <|
  .seq (.group 1 (chars "http" (opt (ch 's')))) <|
  chars "://" <|
  .seq (.group 2 (chars "github12321" (.seq .dot (chars "co" (ch 'm'))))) <|
  chars "/" <|
  .seq (.group 3 (plus notSlash)) <|
  chars "/" <|
  .seq (.group 4 (.seq (plus notSlash) (.seq .dot (chars "git" (opt (ch '/')))))) <|
  .seq (opt (.group 5 (plus .dot))) .eol

/-- Pattern of the second rule: `^(https?)://(github12321.com)/(.+)$`. -/
def simple_regex : Regex :=
  .seq .bol <|
  .seq (.group 1 (chars "http" (opt (ch 's')))) <|
  chars "://" <|
  .seq (.group 2 (chars "github12321" (.seq .dot (chars "co" (ch 'm'))))) <|
  chars "/" <|
  .seq (.group 3 (plus .dot)) .eol

/-- The configured `mappings`. -/
def mappings : List (Regex × MapFn) :=
  [ (repo_regex, fun args =>
      template (param args 0) ++ lit "://github.com/" ++ template (param args 2) ++ lit "/"
        ++ template (param args 3) ++ template (orEmpty (param args 4))),
    (simple_regex, fun args =>
      template (param args 0) ++ lit "://github.com/" ++ template (param args 2)) ]

/-! ## The program -/

/-- The constant `protocol`: the lookup of `PORT` in the table with the two
entries `80: 'http'` and `443: 'https'`; `undefined` for any other port. -/
def protocol (port : Nat) : Option JSString :=
  if port = 80 then some (lit "http")
  else if port = 443 then some (lit "https")
  else none

/-- Function `get_redirection_url`, with the rule list as a parameter. -/
def get_redirection_url (mappings : List (Regex × MapFn)) (target : JSString) :
    Option JSString :=
  match mappings with
  | [] => none
  | (regex, map_fn) :: later =>
    match String_match target regex with
    | none => get_redirection_url later target
    | some result => some (map_fn result.tail)

/-- The fields of a request that the program reads. -/
structure Request where
  host : Option JSString
  url : JSString
  deriving Repr, DecidableEq

/-- Function `get_full_url`; `protocol` is the scheme of the server. -/
def get_full_url (protocol : Option JSString) (req : Request) : JSString :=
  template protocol ++ lit "://" ++ template req.host ++ req.url

/-- What `res.writeHead` and `res.end()` leave in the response. -/
structure Response where
  statusCode : Nat
  headers : List (JSString × JSString)
  body : JSString
  deriving Repr, DecidableEq

/-- The request callback passed to `create_server`. -/
def request_callback (protocol : Option JSString) (mappings : List (Regex × MapFn))
    (req : Request) : Response :=
  let full_url := get_full_url protocol req
  match get_redirection_url mappings full_url with
  | some new_url => { statusCode := STATUS_CODE, headers := [(lit "location", new_url)], body := [] }
  | none => { statusCode := 404, headers := [], body := [] }

/-! ## Server start -/

/-- The configured `HOSTNAME`. -/
def HOSTNAME : JSString := lit "127.0.0.1"

/-- The configured `KEY_PATH` (`null`). -/
def KEY_PATH : Option JSString := none

/-- The configured `CERT_PATH` (`null`). -/
def CERT_PATH : Option JSString := none

/-- The two values of the table `create_server`. -/
inductive ServerConstructor where
  | http_createServer : ServerConstructor
  | https_createServer : ServerConstructor
  deriving Repr, DecidableEq

/-- The constant `create_server`: the lookup of `protocol` in the table with the
two entries `http` and `https`; the key is the scheme as a string, and the
result is `undefined` when the key is not in the table. -/
def create_server (protocol : Option JSString) : Option ServerConstructor :=
  if template protocol = lit "http" then some .http_createServer
  else if template protocol = lit "https" then some .https_createServer
  else none

/-- How the top-level script can end before `server.listen`. -/
inductive StartupError where
  | notAFunction : StartupError
  | readFileFailed (path : Option JSString) : StartupError
  | keyMaterialRefused : StartupError
  deriving Repr, DecidableEq

/-- A server on which `server.listen(PORT, HOSTNAME)` has been called. -/
structure Listening where
  server : ServerConstructor
  port : Nat
  hostname : JSString
  deriving Repr, DecidableEq

/-- The top level of the script from `create_server(...)` to `server.listen`:
calling `undefined` throws a TypeError; the `https` constructor reads the key,
then the certificate (`fs.readFileSync`, `none` when it throws), and
`https.createServer` throws when it does not accept the key and certificate it
is given (`acceptsKeyMaterial`, for instance when they are not PEM). -/
def startup (port : Nat) (readFileSync : Option JSString → Option JSString)
    (acceptsKeyMaterial : JSString → JSString → Bool)
    (key_path cert_path : Option JSString) : Except StartupError Listening :=
  match create_server (protocol port) with
  | none => .error .notAFunction
  | some .http_createServer => .ok ⟨.http_createServer, port, HOSTNAME⟩
  | some .https_createServer =>
    match readFileSync key_path with
    | none => .error (.readFileFailed key_path)
    | some key =>
      match readFileSync cert_path with
      | none => .error (.readFileFailed cert_path)
      | some cert =>
        if acceptsKeyMaterial key cert then .ok ⟨.https_createServer, port, HOSTNAME⟩
        else .error .keyMaterialRefused

/-! ## Rule lists of the scenarios -/

/-- Pattern of scenario 1: `^https?://example.com/(.+)/(.+).git/?$`. -/
def example_regex : Regex :=
  .seq .bol <|
  chars "http" <|
  .seq (opt (ch 's')) <|
  chars "://example" <|
  .seq .dot <|
  chars "com/" <|
  .seq (.group 1 (plus .dot)) <|
  chars "/" <|
  .seq (.group 2 (plus .dot)) <|
  .seq .dot <|
  chars "git" <|
  .seq (opt (ch '/')) .eol

/-- Rule list of scenario 1, with the synthesis function
`(project, repo) => "https://real.com/" + project + "/" + repo`. -/
def example_mappings : List (Regex × MapFn) :=
  [ (example_regex, fun args =>
      lit "https://real.com/" ++ template (param args 0) ++ lit "/" ++ template (param args 1)) ]

/-- A rule list with one pattern that is not anchored: `b`. -/
def unanchored_mappings : List (Regex × MapFn) :=
  [ (ch 'b', fun _ => lit "https://real.com/") ]

/-! ## Reading a pattern from its source text -/

/-- SyntaxCharacter of ECMA-262: one of `^ $ \ . * + ? ( ) [ ] { } |`. -/
def isSyntaxCharacter (c : Nat) : Bool :=
  [94, 36, 92, 46, 42, 43, 63, 40, 41, 91, 93, 123, 125, 124].contains c

/-- An Alternative: its terms in sequence. -/
def sequence : List Regex → Regex
  | [] => .empty
  | [t] => t
  | t :: ts => .seq t (sequence ts)

/-- A Disjunction: its alternatives, separated by `|`. -/
def disjunction : List Regex → Regex
  | [] => .empty
  | [a] => a
  | a :: more => .alt a (disjunction more)

/-- The alternatives read so far (both lists are kept in reverse) as a pattern. -/
def finishDisjunction (alts terms : List Regex) : Regex :=
  disjunction (sequence terms.reverse :: alts).reverse

/-- ClassRanges up to the closing `]`: single code units and ranges `a-b`.
Escapes inside a class are outside the fragment read here.  Each call consumes
input, so a fuel of the length of the input is enough. -/
def parseClassRanges : Nat → List Nat → List (Nat × Nat) →
    Option (List (Nat × Nat) × List Nat)
  | 0, _, _ => none
  | _ + 1, [], _ => none
  | fuel + 1, a :: rest, acc =>
    if a = 93 then some (acc.reverse, rest)
    else if a = 92 then none
    else
      match rest with
      | 45 :: b :: rest2 =>
        if b = 93 then parseClassRanges fuel rest ((a, a) :: acc)
        else if b = 92 then none
        else if a ≤ b then parseClassRanges fuel rest2 ((a, b) :: acc)
        else none
      | _ => parseClassRanges fuel rest ((a, a) :: acc)

/-- An optional Quantifier `*`, `+` or `?` after an atom, lazy when followed by
another `?`. -/
def parseQuantifier (atom : Regex) (input : List Nat) : Regex × List Nat :=
  let bounds : Option (Nat × Option Nat × List Nat) :=
    match input with
    | 42 :: rest => some (0, none, rest)
    | 43 :: rest => some (1, none, rest)
    | 63 :: rest => some (0, some 1, rest)
    | _ => none
  match bounds with
  | none => (atom, input)
  | some (min, max, 63 :: rest) => (.rep min max false atom, rest)
  | some (min, max, rest) => (.rep min max true atom, rest)

/-- A Disjunction of the pattern grammar, read up to the end of the text or an
unmatched `)`; `groups` counts the capturing parentheses opened so far.  The
result is `none` for a syntax error and for the constructs outside the fragment
of `Regex` (braces, escapes other than of a syntax character or `/`,
lookaround, named groups). -/
def parseDisjunction : Nat → List Nat → Nat → List Regex → List Regex →
    Option (Regex × List Nat × Nat)
  | 0, _, _, _, _ => none
  | fuel + 1, input, groups, alts, terms =>
    match input with
    | [] => some (finishDisjunction alts terms, [], groups)
    | c :: rest =>
      if c = 41 then some (finishDisjunction alts terms, input, groups)
      else if c = 124 then
        parseDisjunction fuel rest groups (sequence terms.reverse :: alts) []
      else if c = 94 then parseDisjunction fuel rest groups alts (.bol :: terms)
      else if c = 36 then parseDisjunction fuel rest groups alts (.eol :: terms)
      else if c = 40 then
        match rest with
        | 63 :: 58 :: inner =>
          match parseDisjunction fuel inner groups [] [] with
          | some (r, 41 :: after, groups2) =>
            parseDisjunction fuel (parseQuantifier r after).2 groups2 alts
              ((parseQuantifier r after).1 :: terms)
          | _ => none
        | 63 :: _ => none
        | inner =>
          match parseDisjunction fuel inner (groups + 1) [] [] with
          | some (r, 41 :: after, groups2) =>
            parseDisjunction fuel (parseQuantifier (.group (groups + 1) r) after).2 groups2 alts
              ((parseQuantifier (.group (groups + 1) r) after).1 :: terms)
          | _ => none
      else if c = 91 then
        match (match rest with
            | 94 :: body => (parseClassRanges body.length body []).map fun res => (true, res)
            | body => (parseClassRanges body.length body []).map fun res => (false, res)) with
        | some (invert, ranges, after) =>
          parseDisjunction fuel (parseQuantifier (.cls invert ranges) after).2 groups alts
            ((parseQuantifier (.cls invert ranges) after).1 :: terms)
        | none => none
      else if c = 46 then
        parseDisjunction fuel (parseQuantifier .dot rest).2 groups alts
          ((parseQuantifier .dot rest).1 :: terms)
      else if c = 92 then
        match rest with
        | d :: rest2 =>
          if isSyntaxCharacter d || d = 47 then
            parseDisjunction fuel (parseQuantifier (.char d) rest2).2 groups alts
              ((parseQuantifier (.char d) rest2).1 :: terms)
          else none
        | [] => none
      else if isSyntaxCharacter c then none
      else
        parseDisjunction fuel (parseQuantifier (.char c) rest).2 groups alts
          ((parseQuantifier (.char c) rest).1 :: terms)

/-- The pattern that `new RegExp(source)` compiles, as `String.prototype.match`
creates it from a string: the whole text must be one Disjunction. -/
def RegExpCreate (source : JSString) : Option Regex :=
  match parseDisjunction (source.length + 1) source 0 [] [] with
  | some (r, [], _) => some r
  | _ => none

/-! ## Anchored patterns -/

/-- Every way through the pattern begins with the assertion `^`: the first
term of each alternative is `^`, or an unquantified group of which every
alternative begins with `^`.  The text `^a|b$` does not qualify: its second alternative
begins with `b`. -/
def Regex.startsWithBol : Regex → Bool
  | .bol => true
  | .seq a _ => a.startsWithBol
  | .alt a b => a.startsWithBol && b.startsWithBol
  | .group _ r => r.startsWithBol
  | _ => false

/-- Every way through the pattern ends with the assertion `$`: the last term of
each alternative is `$`, or an unquantified group of which every alternative
ends with `$`. -/
def Regex.endsWithEol : Regex → Bool
  | .eol => true
  | .seq _ b => b.endsWithEol
  | .alt a b => a.endsWithEol && b.endsWithEol
  | .group _ r => r.endsWithEol
  | _ => false

/-- A rule list with the pattern `^a|b$`, whose text begins with `^` and ends
with `$` although neither alternative is anchored on both sides. -/
def half_anchored_mappings : List (Regex × MapFn) :=
  [ (.alt (.seq .bol (ch 'a')) (.seq (ch 'b') .eol), fun _ => lit "https://real.com/") ]

/-- The words a pattern without capture groups can consume: `Lang n r P` says
that from any state the matcher of `r` reaches exactly the states that lie one
word of `P` further in the input, with the captures unchanged. -/
def Lang (n : Nat) (r : Regex) (P : JSString → Prop) : Prop :=
  ∀ x y : State, y ∈ matcher n r x ↔
    ∃ w, P w ∧ x.rest = w ++ y.rest ∧ y.captures = x.captures

/-- The text `http` or `https`, what `https?` matches. -/
def IsScheme (w : JSString) : Prop := w = lit "http" ∨ w = lit "https"

/-- What the pattern piece `github12321.com` matches: the dot is not escaped,
so it stands for any one code unit that is not a line terminator. -/
def IsDomain (w : JSString) : Prop :=
  ∃ c, isLineTerminator c = false ∧ w = lit "github12321" ++ [c] ++ lit "com"

/-- No code unit of `w` is a line terminator: what `.` accepts. -/
def NoLineTerminator (w : JSString) : Prop := ∀ c ∈ w, isLineTerminator c = false

/-- No code unit of `w` is `/`: what `[^/]` accepts. -/
def NoSlash (w : JSString) : Prop := ∀ c ∈ w, c ≠ 47

/-- What the pattern piece `[^/]+.git/?` matches. -/
def IsRepo (w : JSString) : Prop :=
  ∃ u c sl, u ≠ [] ∧ NoSlash u ∧ isLineTerminator c = false ∧ (sl = [] ∨ sl = [47]) ∧
    w = u ++ [c] ++ lit "git" ++ sl

/-! ## The patterns of the source, read from their text -/

theorem RegExpCreate_repo_regex :
    RegExpCreate (lit "^(https?)://(github12321.com)/([^/]+)/([^/]+.git/?)(.+)?$") =
      some repo_regex := by
  decide

theorem RegExpCreate_simple_regex :
    RegExpCreate (lit "^(https?)://(github12321.com)/(.+)$") = some simple_regex := by
  decide

theorem RegExpCreate_example_regex :
    RegExpCreate (lit "^https?://example.com/(.+)/(.+).git/?$") = some example_regex := by
  decide

theorem RegExpCreate_unanchored :
    RegExpCreate (lit "b") = some (ch 'b') := by
  decide

/-! ## The matcher, construct by construct -/

theorem RepeatMatcher_max_zero (m : State → List State) (parens : List Nat) (greedy : Bool)
    (fuel min : Nat) (x : State) :
    RepeatMatcher m parens greedy fuel min (some 0) x = [x] := by
  cases fuel <;> simp [RepeatMatcher]

theorem mem_CharacterSetMatcher (p : Nat → Bool) (x y : State) :
    y ∈ CharacterSetMatcher p x ↔
      ∃ c, p c = true ∧ x.rest = c :: y.rest ∧ y.captures = x.captures := by
  obtain ⟨xr, xc⟩ := x
  obtain ⟨yr, yc⟩ := y
  cases xr with
  | nil => simp [CharacterSetMatcher]
  | cons c cs =>
    by_cases hp : p c = true
    · simp only [CharacterSetMatcher, hp, if_true, List.mem_singleton, State.mk.injEq,
        List.cons.injEq]
      constructor
      · rintro ⟨rfl, rfl⟩
        exact ⟨c, hp, ⟨rfl, rfl⟩, rfl⟩
      · rintro ⟨d, _, ⟨rfl, rfl⟩, rfl⟩
        exact ⟨rfl, rfl⟩
    · have hf : p c = false := by simpa using hp
      simp only [CharacterSetMatcher, hf, Bool.false_eq_true, if_false, List.not_mem_nil,
        false_iff, not_exists, not_and, List.cons.injEq]
      rintro d hd ⟨rfl, _⟩
      exact absurd hd hp

theorem mem_matcher_char (n c : Nat) (x y : State) :
    y ∈ matcher n (.char c) x ↔ x.rest = c :: y.rest ∧ y.captures = x.captures := by
  simp only [matcher, mem_CharacterSetMatcher, beq_iff_eq]
  constructor
  · rintro ⟨d, rfl, h1, h2⟩
    exact ⟨h1, h2⟩
  · rintro ⟨h1, h2⟩
    exact ⟨c, rfl, h1, h2⟩

theorem mem_matcher_seq (n : Nat) (a b : Regex) (x y : State) :
    y ∈ matcher n (.seq a b) x ↔ ∃ z, z ∈ matcher n a x ∧ y ∈ matcher n b z := by
  simp [matcher, List.mem_flatMap]

theorem mem_matcher_group (n idx : Nat) (r : Regex) (x y : State) :
    y ∈ matcher n (.group idx r) x ↔
      ∃ z, z ∈ matcher n r x ∧
        y = ⟨z.rest, z.captures.set (idx - 1)
          (some (x.rest.take (x.rest.length - z.rest.length)))⟩ := by
  simp only [matcher, List.mem_map]
  constructor
  · rintro ⟨z, hz, rfl⟩
    exact ⟨z, hz, rfl⟩
  · rintro ⟨z, hz, rfl⟩
    exact ⟨z, hz, rfl⟩

theorem RepeatMatcher_rest_le (m : State → List State) (parens : List Nat) (greedy : Bool)
    (hm : ∀ x y, y ∈ m x → y.rest.length ≤ x.rest.length) (fuel : Nat) :
    ∀ (min : Nat) (max : Option Nat) (x y : State),
      y ∈ RepeatMatcher m parens greedy fuel min max x → y.rest.length ≤ x.rest.length := by
  induction fuel with
  | zero =>
    intro min max x y hy
    by_cases h0 : max = some 0
    · simp only [RepeatMatcher, h0, if_true, List.mem_singleton] at hy
      rw [hy]
    · simp [RepeatMatcher, h0] at hy
  | succ fuel ih =>
    intro min max x y hy
    by_cases h0 : max = some 0
    · simp only [RepeatMatcher, h0, if_true, List.mem_singleton] at hy
      rw [hy]
    · have hiter : ∀ y, y ∈ ((m { x with captures := clearCaptures parens x.captures }).filter
          fun y => !(min == 0 && y.rest.length == x.rest.length)).flatMap
          (fun y => RepeatMatcher m parens greedy fuel (min - 1) (max.map fun k => k - 1) y) →
          y.rest.length ≤ x.rest.length := by
        intro y hy
        obtain ⟨z, hz, hy⟩ := List.mem_flatMap.1 hy
        have hz := hm _ z (List.mem_filter.1 hz).1
        exact Nat.le_trans (ih _ _ z y hy) hz
      simp only [RepeatMatcher, h0, if_false] at hy
      by_cases hmin : min = 0
      · cases greedy
        · simp only [hmin, ne_eq, not_true_eq_false, if_false, Bool.false_eq_true,
            List.mem_cons] at hy
          rcases hy with rfl | hy
          · exact Nat.le_refl _
          · exact hiter y (by simpa [hmin] using hy)
        · simp only [hmin, ne_eq, not_true_eq_false, if_false, if_true, List.mem_append,
            List.mem_singleton] at hy
          rcases hy with hy | rfl
          · exact hiter y (by simpa [hmin] using hy)
          · exact Nat.le_refl _
      · simp only [ne_eq, hmin, not_false_eq_true, if_true] at hy
        exact hiter y hy

theorem RepeatMatcher_fuel (m : State → List State) (parens : List Nat) (greedy : Bool)
    (hm : ∀ x y, y ∈ m x → y.rest.length ≤ x.rest.length) (fuel1 : Nat) :
    ∀ (fuel2 min : Nat) (max : Option Nat) (x : State),
      x.rest.length + min < fuel1 → x.rest.length + min < fuel2 →
      RepeatMatcher m parens greedy fuel1 min max x =
        RepeatMatcher m parens greedy fuel2 min max x := by
  induction fuel1 with
  | zero => intro fuel2 min max x h1; omega
  | succ fuel1 ih =>
    intro fuel2 min max x h1 h2
    cases fuel2 with
    | zero => omega
    | succ fuel2 =>
      have hiter : ((m { x with captures := clearCaptures parens x.captures }).filter
          fun y => !(min == 0 && y.rest.length == x.rest.length)).flatMap
          (fun y => RepeatMatcher m parens greedy fuel1 (min - 1) (max.map fun k => k - 1) y) =
          ((m { x with captures := clearCaptures parens x.captures }).filter
          fun y => !(min == 0 && y.rest.length == x.rest.length)).flatMap
          (fun y => RepeatMatcher m parens greedy fuel2 (min - 1) (max.map fun k => k - 1) y) := by
        apply List.flatMap_congr
        intro z hz
        obtain ⟨hz1, hz2⟩ := List.mem_filter.1 hz
        have hle : z.rest.length ≤ x.rest.length :=
          hm ⟨x.rest, clearCaptures parens x.captures⟩ z hz1
        have hlt : z.rest.length + (min - 1) < x.rest.length + min := by
          by_cases hmin : min = 0
          · subst hmin
            simp only [beq_self_eq_true, Bool.true_and, Bool.not_eq_true', beq_eq_false_iff_ne,
              ne_eq] at hz2
            omega
          · omega
        exact ih fuel2 (min - 1) _ z (by omega) (by omega)
      simp only [RepeatMatcher]
      rw [hiter]

theorem matcher_rest_le (n : Nat) (r : Regex) :
    ∀ x y : State, y ∈ matcher n r x → y.rest.length ≤ x.rest.length := by
  induction r with
  | empty =>
    intro x y hy
    simp only [matcher, List.mem_singleton] at hy
    rw [hy]
  | char c =>
    intro x y hy
    obtain ⟨d, _, h1, _⟩ := (mem_CharacterSetMatcher _ x y).1 hy
    rw [h1]; simp
  | dot =>
    intro x y hy
    obtain ⟨d, _, h1, _⟩ := (mem_CharacterSetMatcher _ x y).1 hy
    rw [h1]; simp
  | cls invert ranges =>
    intro x y hy
    obtain ⟨d, _, h1, _⟩ := (mem_CharacterSetMatcher _ x y).1 hy
    rw [h1]; simp
  | bol =>
    intro x y hy
    by_cases h : x.rest.length = n <;> simp [matcher, h] at hy
    rw [hy]
  | eol =>
    intro x y hy
    by_cases h : x.rest.length = 0 <;> simp only [matcher, h, if_true, if_false,
      List.mem_singleton, List.not_mem_nil] at hy
    rw [hy]
  | seq a b iha ihb =>
    intro x y hy
    obtain ⟨z, hz, hy⟩ := (mem_matcher_seq n a b x y).1 hy
    exact Nat.le_trans (ihb z y hy) (iha x z hz)
  | alt a b iha ihb =>
    intro x y hy
    simp only [matcher, List.mem_append] at hy
    rcases hy with hy | hy
    · exact iha x y hy
    · exact ihb x y hy
  | group idx r ih =>
    intro x y hy
    obtain ⟨z, hz, rfl⟩ := (mem_matcher_group n idx r x y).1 hy
    exact ih x z hz
  | rep min max greedy r ih =>
    intro x y hy
    exact RepeatMatcher_rest_le _ _ _ ih _ min max x y hy

/-- The fuel that `matcher` hands to RepeatMatcher is never used up: any larger
amount gives the same list of end states. -/
theorem matcher_rep_fuel (n min : Nat) (max : Option Nat) (greedy : Bool) (r : Regex)
    (x : State) (fuel : Nat) (h : x.rest.length + min < fuel) :
    matcher n (.rep min max greedy r) x =
      RepeatMatcher (matcher n r) r.groups greedy fuel min max x :=
  RepeatMatcher_fuel _ _ _ (matcher_rest_le n r) _ fuel min max x (by omega) h

theorem mem_matcher_opt (n : Nat) (r : Regex) (x y : State) :
    y ∈ matcher n (opt r) x ↔
      (y ∈ matcher n r ⟨x.rest, clearCaptures r.groups x.captures⟩ ∧
        y.rest.length ≠ x.rest.length) ∨ y = x := by
  simp [opt, matcher, RepeatMatcher, RepeatMatcher_max_zero, List.mem_filter]

theorem mem_RepeatMatcher_charset (p : Nat → Bool) (greedy : Bool) (fuel : Nat) :
    ∀ (min : Nat) (x y : State), x.rest.length + min < fuel →
      (y ∈ RepeatMatcher (CharacterSetMatcher p) [] greedy fuel min none x ↔
        ∃ w, min ≤ w.length ∧ (∀ c ∈ w, p c = true) ∧ x.rest = w ++ y.rest ∧
          y.captures = x.captures) := by
  induction fuel with
  | zero => intro min x y h; omega
  | succ fuel ih =>
    intro min x y hfuel
    obtain ⟨xr, xc⟩ := x
    simp only at hfuel
    have hiter : ∀ y : State,
        (y ∈ ((CharacterSetMatcher p ⟨xr, xc⟩).filter fun z =>
            !(min == 0 && z.rest.length == xr.length)).flatMap
          (fun z => RepeatMatcher (CharacterSetMatcher p) [] greedy fuel (min - 1) none z)) ↔
        ∃ c w, min - 1 ≤ w.length ∧ p c = true ∧ (∀ d ∈ w, p d = true) ∧
          xr = c :: (w ++ y.rest) ∧ y.captures = xc := by
      intro y
      simp only [List.mem_flatMap, List.mem_filter, mem_CharacterSetMatcher]
      constructor
      · rintro ⟨z, ⟨⟨c, hc, hx, hcap⟩, _⟩, hy⟩
        have hlen : z.rest.length + (min - 1) < fuel := by
          have := congrArg List.length hx
          simp only [List.length_cons] at this
          omega
        obtain ⟨w, hw1, hw2, hw3, hw4⟩ := (ih (min - 1) z y hlen).1 hy
        exact ⟨c, w, hw1, hc, hw2, by rw [hx, hw3], by rw [hw4, hcap]⟩
      · rintro ⟨c, w, hw1, hc, hw2, hx, hcap⟩
        have hlen : (w ++ y.rest).length + (min - 1) < fuel := by
          have := congrArg List.length hx
          simp only [List.length_cons] at this
          omega
        refine ⟨⟨w ++ y.rest, xc⟩, ⟨⟨c, hc, hx, rfl⟩, ?_⟩, ?_⟩
        · have := congrArg List.length hx
          simp only [List.length_cons] at this
          simp only [this]
          simp
        · exact (ih (min - 1) ⟨w ++ y.rest, xc⟩ y hlen).2 ⟨w, hw1, hw2, rfl, hcap⟩
    have hunfold : RepeatMatcher (CharacterSetMatcher p) [] greedy (fuel + 1) min none ⟨xr, xc⟩ =
        (let iter := ((CharacterSetMatcher p ⟨xr, xc⟩).filter fun z =>
            !(min == 0 && z.rest.length == xr.length)).flatMap
          (fun z => RepeatMatcher (CharacterSetMatcher p) [] greedy fuel (min - 1) none z)
        if min ≠ 0 then iter else if greedy then iter ++ [⟨xr, xc⟩] else ⟨xr, xc⟩ :: iter) := by
      simp [RepeatMatcher, clearCaptures]
    rw [hunfold]
    have hx_eq : ∀ y : State, y = (⟨xr, xc⟩ : State) ↔ (xr = y.rest ∧ y.captures = xc) := by
      rintro ⟨yr, yc⟩
      simp only [State.mk.injEq]
      constructor
      · rintro ⟨rfl, rfl⟩; exact ⟨rfl, rfl⟩
      · rintro ⟨rfl, rfl⟩; exact ⟨rfl, rfl⟩
    have hrhs : (∃ w : List Nat, min ≤ w.length ∧ (∀ c ∈ w, p c = true) ∧ xr = w ++ y.rest ∧
          y.captures = xc) ↔
        ((min = 0 ∧ xr = y.rest ∧ y.captures = xc) ∨
          ∃ c w, min - 1 ≤ w.length ∧ p c = true ∧ (∀ d ∈ w, p d = true) ∧
            xr = c :: (w ++ y.rest) ∧ y.captures = xc) := by
      constructor
      · rintro ⟨w, hw1, hw2, hw3, hw4⟩
        cases w with
        | nil =>
          left
          exact ⟨by simpa using hw1, by simpa using hw3, hw4⟩
        | cons c w =>
          right
          refine ⟨c, w, ?_, hw2 c (List.mem_cons_self _ _),
            fun d hd => hw2 d (List.mem_cons_of_mem _ hd), by simpa using hw3, hw4⟩
          simp only [List.length_cons] at hw1
          omega
      · rintro (⟨h0, h1, h2⟩ | ⟨c, w, hw1, hc, hw2, hw3, hw4⟩)
        · exact ⟨[], by simp [h0], by simp, by simpa using h1, h2⟩
        · refine ⟨c :: w, ?_, ?_, by simpa using hw3, hw4⟩
          · simp only [List.length_cons]; omega
          · intro d hd
            rcases List.mem_cons.1 hd with rfl | hd
            · exact hc
            · exact hw2 d hd
    simp only
    rw [hrhs]
    by_cases hmin : min = 0
    · subst hmin
      cases greedy
      · simp only [ne_eq, not_true_eq_false, if_false, Bool.false_eq_true, List.mem_cons, hiter,
          hx_eq, true_and]
      · simp only [ne_eq, not_true_eq_false, if_false, if_true, List.mem_append,
          List.mem_singleton, hiter, hx_eq, true_and]
        exact or_comm
    · simp only [ne_eq, hmin, not_false_eq_true, if_true, hiter, false_and, false_or]

theorem mem_matcher_plus_dot (n : Nat) (x y : State) :
    y ∈ matcher n (plus .dot) x ↔
      ∃ w, w ≠ [] ∧ (∀ c ∈ w, isLineTerminator c = false) ∧ x.rest = w ++ y.rest ∧
        y.captures = x.captures := by
  have h := mem_RepeatMatcher_charset (fun d => !isLineTerminator d) true
    (x.rest.length + 1 + 1) 1 x y (by omega)
  simp only [plus, matcher, Regex.groups]
  rw [h]
  constructor
  · rintro ⟨w, hw1, hw2, hw3⟩
    refine ⟨w, ?_, fun c hc => by simpa using hw2 c hc, hw3⟩
    rintro rfl
    simp at hw1
  · rintro ⟨w, hw1, hw2, hw3⟩
    refine ⟨w, ?_, fun c hc => by simpa using hw2 c hc, hw3⟩
    cases w with
    | nil => exact absurd rfl hw1
    | cons c w => simp

theorem mem_matcher_plus_notSlash (n : Nat) (x y : State) :
    y ∈ matcher n (plus notSlash) x ↔
      ∃ w, w ≠ [] ∧ (∀ c ∈ w, c ≠ 47) ∧ x.rest = w ++ y.rest ∧
        y.captures = x.captures := by
  have h := mem_RepeatMatcher_charset (classMatches true [(47, 47)]) true
    (x.rest.length + 1 + 1) 1 x y (by omega)
  have hcls : ∀ c : Nat, classMatches true [(47, 47)] c = true ↔ c ≠ 47 := by
    intro c
    simp only [classMatches, List.any_cons, List.any_nil, Bool.or_false, bne_iff_ne, ne_eq,
      Bool.and_eq_true, decide_eq_true_eq, Bool.not_eq_true]
    constructor
    · intro h1 h2; subst h2; simp at h1
    · intro h1
      simp only [Bool.and_eq_true, decide_eq_true_eq, not_and, not_le]
      omega
  simp only [plus, notSlash, matcher, Regex.groups]
  rw [h]
  constructor
  · rintro ⟨w, hw1, hw2, hw3⟩
    refine ⟨w, ?_, fun c hc => (hcls c).1 (hw2 c hc), hw3⟩
    rintro rfl
    simp at hw1
  · rintro ⟨w, hw1, hw2, hw3⟩
    refine ⟨w, ?_, fun c hc => (hcls c).2 (hw2 c hc), hw3⟩
    cases w with
    | nil => exact absurd rfl hw1
    | cons c w => simp

theorem mem_matcher_dot (n : Nat) (x y : State) :
    y ∈ matcher n .dot x ↔
      ∃ c, isLineTerminator c = false ∧ x.rest = c :: y.rest ∧ y.captures = x.captures := by
  simp [matcher, mem_CharacterSetMatcher]

theorem mem_matcher_bol (n : Nat) (x y : State) :
    y ∈ matcher n .bol x ↔ x.rest.length = n ∧ y = x := by
  by_cases h : x.rest.length = n <;> simp [matcher, h]

theorem mem_matcher_eol (n : Nat) (x y : State) :
    y ∈ matcher n .eol x ↔ x.rest = [] ∧ y = x := by
  by_cases h : x.rest = [] <;> simp [matcher, h]

theorem mem_matcher_chars (n : Nat) (s : String) (r : Regex) (x y : State) :
    y ∈ matcher n (chars s r) x ↔
      ∃ rest, x.rest = lit s ++ rest ∧ y ∈ matcher n r ⟨rest, x.captures⟩ := by
  unfold chars lit
  generalize s.toList = l
  induction l generalizing x with
  | nil => simp
  | cons c l ih =>
    simp only [List.foldr_cons, List.map_cons, List.cons_append, mem_matcher_seq, ch,
      mem_matcher_char]
    constructor
    · rintro ⟨z, ⟨hz1, hz2⟩, hy⟩
      obtain ⟨rest, hr, hy⟩ := (ih z).1 hy
      exact ⟨rest, by rw [hz1, hr], by rw [← hz2]; exact hy⟩
    · rintro ⟨rest, hr, hy⟩
      exact ⟨⟨List.map Char.toNat l ++ rest, x.captures⟩, ⟨hr, rfl⟩, (ih _).2 ⟨rest, rfl, hy⟩⟩

/-! ## The search loop -/

theorem startsWithBol_sound (n : Nat) (r : Regex) (hr : r.startsWithBol = true) (x y : State)
    (hy : y ∈ matcher n r x) : x.rest.length = n := by
  induction r generalizing x y with
  | bol => exact ((mem_matcher_bol n x y).1 hy).1
  | seq a b iha _ =>
    obtain ⟨z, hz, _⟩ := (mem_matcher_seq n a b x y).1 hy
    exact iha (by simpa [Regex.startsWithBol] using hr) x z hz
  | alt a b iha ihb =>
    simp only [Regex.startsWithBol, Bool.and_eq_true] at hr
    simp only [matcher, List.mem_append] at hy
    rcases hy with hy | hy
    · exact iha hr.1 x y hy
    · exact ihb hr.2 x y hy
  | group idx r ih =>
    obtain ⟨z, hz, _⟩ := (mem_matcher_group n idx r x y).1 hy
    exact ih (by simpa [Regex.startsWithBol] using hr) x z hz
  | _ => simp [Regex.startsWithBol] at hr

theorem endsWithEol_sound (n : Nat) (r : Regex) (hr : r.endsWithEol = true) (x y : State)
    (hy : y ∈ matcher n r x) : y.rest = [] := by
  induction r generalizing x y with
  | eol =>
    obtain ⟨h1, h2⟩ := (mem_matcher_eol n x y).1 hy
    rw [h2, h1]
  | seq a b _ ihb =>
    obtain ⟨z, _, hz⟩ := (mem_matcher_seq n a b x y).1 hy
    exact ihb (by simpa [Regex.endsWithEol] using hr) z y hz
  | alt a b iha ihb =>
    simp only [Regex.endsWithEol, Bool.and_eq_true] at hr
    simp only [matcher, List.mem_append] at hy
    rcases hy with hy | hy
    · exact iha hr.1 x y hy
    · exact ihb hr.2 x y hy
  | group idx r ih =>
    obtain ⟨z, hz, rfl⟩ := (mem_matcher_group n idx r x y).1 hy
    exact ih (by simpa [Regex.endsWithEol] using hr) x z hz
  | _ => simp [Regex.endsWithEol] at hr

theorem matchAt_eq_some (r : Regex) (n : Nat) (rest : JSString) (arr : List (Option JSString))
    (h : matchAt r n rest = some arr) :
    ∃ y, (matcher n r ⟨rest, List.replicate r.groups.length none⟩).head? = some y ∧
      arr = some (rest.take (rest.length - y.rest.length)) :: y.captures := by
  unfold matchAt at h
  cases hh : (matcher n r ⟨rest, List.replicate r.groups.length none⟩).head? with
  | none => rw [hh] at h; simp at h
  | some y =>
    rw [hh] at h
    simp only [Option.some.injEq] at h
    exact ⟨y, rfl, h.symm⟩

theorem matchAt_of_mem (r : Regex) (n : Nat) (rest : JSString) (y : State)
    (h : y ∈ matcher n r ⟨rest, List.replicate r.groups.length none⟩) :
    ∃ arr, matchAt r n rest = some arr := by
  unfold matchAt
  cases hh : (matcher n r ⟨rest, List.replicate r.groups.length none⟩).head? with
  | none =>
    rw [List.head?_eq_none_iff] at hh
    rw [hh] at h
    simp at h
  | some z => exact ⟨_, rfl⟩

theorem matchAt_eq_none_iff (r : Regex) (n : Nat) (rest : JSString) :
    matchAt r n rest = none ↔ matcher n r ⟨rest, List.replicate r.groups.length none⟩ = [] := by
  unfold matchAt
  cases hh : (matcher n r ⟨rest, List.replicate r.groups.length none⟩).head? with
  | none => simpa [List.head?_eq_none_iff] using hh
  | some z =>
    simp only [reduceCtorEq, false_iff]
    intro h
    rw [h] at hh
    simp at hh

theorem matchAt_off_start (r : Regex) (hr : r.startsWithBol = true) (n : Nat) (rest : JSString)
    (h : rest.length ≠ n) : matchAt r n rest = none := by
  rw [matchAt_eq_none_iff]
  apply List.eq_nil_iff_forall_not_mem.2
  intro y hy
  exact h (startsWithBol_sound n r hr _ y hy)

theorem execFrom_short (r : Regex) (hr : r.startsWithBol = true) (n : Nat) (rest : JSString)
    (h : rest.length < n) : execFrom r n rest = none := by
  induction rest with
  | nil => exact matchAt_off_start r hr n [] (by simpa using Nat.ne_of_lt h)
  | cons c cs ih =>
    simp only [execFrom]
    rw [matchAt_off_start r hr n (c :: cs) (Nat.ne_of_lt h)]
    exact ih (by simp only [List.length_cons] at h; omega)

theorem String_match_anchored (r : Regex) (hr : r.startsWithBol = true) (target : JSString) :
    String_match target r = matchAt r target.length target := by
  unfold String_match
  cases target with
  | nil => rfl
  | cons c cs =>
    simp only [execFrom]
    cases hm : matchAt r (c :: cs).length (c :: cs) with
    | some a => rfl
    | none => exact execFrom_short r hr _ cs (by simp)

/-! ## Words consumed by the pieces of the patterns -/

theorem State.eq_iff (x y : State) : y = x ↔ x.rest = y.rest ∧ y.captures = x.captures := by
  obtain ⟨xr, xc⟩ := x
  obtain ⟨yr, yc⟩ := y
  simp only [State.mk.injEq]
  constructor
  · rintro ⟨rfl, rfl⟩; exact ⟨rfl, rfl⟩
  · rintro ⟨rfl, rfl⟩; exact ⟨rfl, rfl⟩

theorem take_consumed (w rest : JSString) :
    (w ++ rest).take ((w ++ rest).length - rest.length) = w := by
  simp

theorem Lang.congr {n : Nat} {r : Regex} {P Q : JSString → Prop} (h : Lang n r P)
    (hPQ : ∀ w, P w ↔ Q w) : Lang n r Q := by
  intro x y
  rw [h x y]
  constructor
  · rintro ⟨w, hw, h1⟩; exact ⟨w, (hPQ w).1 hw, h1⟩
  · rintro ⟨w, hw, h1⟩; exact ⟨w, (hPQ w).2 hw, h1⟩

theorem lang_char (n c : Nat) : Lang n (.char c) (fun w => w = [c]) := by
  intro x y
  rw [mem_matcher_char]
  constructor
  · rintro ⟨h1, h2⟩; exact ⟨[c], rfl, h1, h2⟩
  · rintro ⟨w, rfl, h1, h2⟩; exact ⟨h1, h2⟩

theorem lang_dot (n : Nat) :
    Lang n .dot (fun w => ∃ c, isLineTerminator c = false ∧ w = [c]) := by
  intro x y
  rw [mem_matcher_dot]
  constructor
  · rintro ⟨c, hc, h1, h2⟩; exact ⟨[c], ⟨c, hc, rfl⟩, h1, h2⟩
  · rintro ⟨w, ⟨c, hc, rfl⟩, h1, h2⟩; exact ⟨c, hc, h1, h2⟩

theorem lang_plus_dot (n : Nat) :
    Lang n (plus .dot) (fun w => w ≠ [] ∧ ∀ c ∈ w, isLineTerminator c = false) := by
  intro x y
  rw [mem_matcher_plus_dot]
  constructor
  · rintro ⟨w, h0, h1, h2⟩; exact ⟨w, ⟨h0, h1⟩, h2⟩
  · rintro ⟨w, ⟨h0, h1⟩, h2⟩; exact ⟨w, h0, h1, h2⟩

theorem lang_plus_notSlash (n : Nat) :
    Lang n (plus notSlash) (fun w => w ≠ [] ∧ ∀ c ∈ w, c ≠ 47) := by
  intro x y
  rw [mem_matcher_plus_notSlash]
  constructor
  · rintro ⟨w, h0, h1, h2⟩; exact ⟨w, ⟨h0, h1⟩, h2⟩
  · rintro ⟨w, ⟨h0, h1⟩, h2⟩; exact ⟨w, h0, h1, h2⟩

theorem lang_seq {n : Nat} {a b : Regex} {P Q : JSString → Prop} (ha : Lang n a P)
    (hb : Lang n b Q) : Lang n (.seq a b) (fun w => ∃ u v, P u ∧ Q v ∧ w = u ++ v) := by
  intro x y
  rw [mem_matcher_seq]
  constructor
  · rintro ⟨z, hz, hy⟩
    obtain ⟨u, hu, h1, h2⟩ := (ha x z).1 hz
    obtain ⟨v, hv, h3, h4⟩ := (hb z y).1 hy
    exact ⟨u ++ v, ⟨u, v, hu, hv, rfl⟩, by rw [h1, h3, List.append_assoc], by rw [h4, h2]⟩
  · rintro ⟨w, ⟨u, v, hu, hv, rfl⟩, h1, h2⟩
    refine ⟨⟨v ++ y.rest, x.captures⟩, (ha x _).2 ⟨u, hu, ?_, rfl⟩, (hb _ y).2 ⟨v, hv, rfl, h2⟩⟩
    rw [h1, List.append_assoc]

theorem lang_chars {n : Nat} {r : Regex} {P : JSString → Prop} (s : String) (hr : Lang n r P) :
    Lang n (chars s r) (fun w => ∃ v, P v ∧ w = lit s ++ v) := by
  intro x y
  rw [mem_matcher_chars]
  constructor
  · rintro ⟨rest, h1, hy⟩
    obtain ⟨v, hv, h2, h3⟩ := (hr _ y).1 hy
    have h2 : rest = v ++ y.rest := h2
    exact ⟨lit s ++ v, ⟨v, hv, rfl⟩, by rw [h1, h2, List.append_assoc], h3⟩
  · rintro ⟨w, ⟨v, hv, rfl⟩, h1, h2⟩
    exact ⟨v ++ y.rest, by rw [h1, List.append_assoc], (hr _ y).2 ⟨v, hv, rfl, h2⟩⟩

theorem lang_opt {n : Nat} {r : Regex} {P : JSString → Prop} (hr : Lang n r P)
    (hg : r.groups = []) : Lang n (opt r) (fun w => w = [] ∨ (P w ∧ w ≠ [])) := by
  intro x y
  rw [mem_matcher_opt, hg]
  simp only [clearCaptures, List.foldl_nil]
  rw [hr ⟨x.rest, x.captures⟩ y, State.eq_iff]
  constructor
  · rintro (⟨⟨w, hw, h1, h2⟩, hne⟩ | ⟨h1, h2⟩)
    · refine ⟨w, Or.inr ⟨hw, ?_⟩, h1, h2⟩
      rintro rfl
      simp only [List.nil_append] at h1
      exact hne (by rw [h1])
    · exact ⟨[], Or.inl rfl, by simpa using h1, h2⟩
  · rintro ⟨w, (rfl | ⟨hw, hne⟩), h1, h2⟩
    · right
      exact ⟨by simpa using h1, h2⟩
    · left
      refine ⟨⟨w, hw, h1, h2⟩, ?_⟩
      have h1 : x.rest = w ++ y.rest := h1
      intro hlen
      have := congrArg List.length h1
      simp only [List.length_append] at this
      have hw0 : w.length = 0 := by omega
      exact hne (List.length_eq_zero.1 hw0)

theorem mem_seq_lang {n : Nat} {a : Regex} {P : JSString → Prop} (ha : Lang n a P) (b : Regex)
    (x y : State) :
    y ∈ matcher n (.seq a b) x ↔
      ∃ w t, P w ∧ x.rest = w ++ t ∧ y ∈ matcher n b ⟨t, x.captures⟩ := by
  rw [mem_matcher_seq]
  constructor
  · rintro ⟨z, hz, hy⟩
    obtain ⟨w, hw, h1, h2⟩ := (ha x z).1 hz
    refine ⟨w, z.rest, hw, h1, ?_⟩
    rw [← h2]
    exact hy
  · rintro ⟨w, t, hw, h1, hy⟩
    exact ⟨⟨t, x.captures⟩, (ha x _).2 ⟨w, hw, h1, rfl⟩, hy⟩

theorem mem_seq_group {n : Nat} {a : Regex} {P : JSString → Prop} (ha : Lang n a P)
    (idx : Nat) (b : Regex) (x y : State) :
    y ∈ matcher n (.seq (.group idx a) b) x ↔
      ∃ w t, P w ∧ x.rest = w ++ t ∧
        y ∈ matcher n b ⟨t, x.captures.set (idx - 1) (some w)⟩ := by
  rw [mem_matcher_seq]
  constructor
  · rintro ⟨z, hz, hy⟩
    obtain ⟨z0, hz0, rfl⟩ := (mem_matcher_group n idx a x z).1 hz
    obtain ⟨w, hw, h1, h2⟩ := (ha x z0).1 hz0
    refine ⟨w, z0.rest, hw, h1, ?_⟩
    rw [h1, take_consumed, h2] at hy
    exact hy
  · rintro ⟨w, t, hw, h1, hy⟩
    refine ⟨_, (mem_matcher_group n idx a x _).2 ⟨⟨t, x.captures⟩, (ha x _).2 ⟨w, hw, h1, rfl⟩,
      rfl⟩, ?_⟩
    simp only
    rw [h1, take_consumed]
    exact hy

theorem lang_scheme (n : Nat) : Lang n (chars "http" (opt (ch 's'))) IsScheme := by
  refine (lang_chars "http" (lang_opt (lang_char n 115) rfl)).congr ?_
  intro w
  unfold IsScheme
  constructor
  · rintro ⟨v, (rfl | ⟨rfl, _⟩), rfl⟩
    · left; simp
    · right; rfl
  · rintro (rfl | rfl)
    · exact ⟨[], Or.inl rfl, by simp⟩
    · exact ⟨[115], Or.inr ⟨rfl, by simp⟩, rfl⟩

theorem lang_domain (n : Nat) :
    Lang n (chars "github12321" (.seq .dot (chars "co" (ch 'm')))) IsDomain := by
  refine (lang_chars "github12321"
    (lang_seq (lang_dot n) (lang_chars "co" (lang_char n 109)))).congr ?_
  intro w
  unfold IsDomain
  constructor
  · rintro ⟨v, ⟨u, t, ⟨c, hc, rfl⟩, ⟨t2, rfl, rfl⟩, rfl⟩, rfl⟩
    exact ⟨c, hc, by simp [lit]⟩
  · rintro ⟨c, hc, rfl⟩
    exact ⟨[c] ++ lit "com", ⟨[c], lit "com", ⟨c, hc, rfl⟩, ⟨[109], rfl, rfl⟩, rfl⟩,
      by simp⟩

theorem lang_segment (n : Nat) :
    Lang n (plus notSlash) (fun w => w ≠ [] ∧ NoSlash w) :=
  lang_plus_notSlash n

theorem lang_repo (n : Nat) :
    Lang n (.seq (plus notSlash) (.seq .dot (chars "git" (opt (ch '/'))))) IsRepo := by
  refine (lang_seq (lang_plus_notSlash n)
    (lang_seq (lang_dot n) (lang_chars "git" (lang_opt (lang_char n 47) rfl)))).congr ?_
  intro w
  unfold IsRepo NoSlash
  constructor
  · rintro ⟨u, v, ⟨hu1, hu2⟩, ⟨d, t, ⟨c, hc, rfl⟩, ⟨sl, hsl, rfl⟩, rfl⟩, rfl⟩
    refine ⟨u, c, sl, hu1, hu2, hc, ?_, by simp⟩
    rcases hsl with rfl | ⟨rfl, _⟩
    · exact Or.inl rfl
    · exact Or.inr rfl
  · rintro ⟨u, c, sl, hu1, hu2, hc, hsl, rfl⟩
    refine ⟨u, [c] ++ (lit "git" ++ sl), ⟨hu1, hu2⟩,
      ⟨[c], lit "git" ++ sl, ⟨c, hc, rfl⟩, ⟨sl, ?_, rfl⟩, rfl⟩, by simp⟩
    rcases hsl with rfl | rfl
    · exact Or.inl rfl
    · exact Or.inr ⟨rfl, by simp⟩

theorem mem_seq_bol (n : Nat) (r : Regex) (x y : State) :
    y ∈ matcher n (.seq .bol r) x ↔ x.rest.length = n ∧ y ∈ matcher n r x := by
  rw [mem_matcher_seq]
  constructor
  · rintro ⟨z, hz, hy⟩
    obtain ⟨h1, rfl⟩ := (mem_matcher_bol n x z).1 hz
    exact ⟨h1, hy⟩
  · rintro ⟨h1, hy⟩
    exact ⟨x, (mem_matcher_bol n x x).2 ⟨h1, rfl⟩, hy⟩

theorem mem_seq_eol {n : Nat} {a : Regex} {P : JSString → Prop} (ha : Lang n a P)
    (x y : State) :
    y ∈ matcher n (.seq a .eol) x ↔ P x.rest ∧ y = ⟨[], x.captures⟩ := by
  rw [mem_seq_lang ha]
  constructor
  · rintro ⟨w, t, hw, h1, hy⟩
    obtain ⟨h2, rfl⟩ := (mem_matcher_eol n _ y).1 hy
    have h2 : t = [] := h2
    subst h2
    rw [h1, List.append_nil]
    exact ⟨hw, rfl⟩
  · rintro ⟨hw, rfl⟩
    exact ⟨x.rest, [], hw, by simp, (mem_matcher_eol n _ _).2 ⟨rfl, rfl⟩⟩

theorem mem_group_eol {n : Nat} {a : Regex} {P : JSString → Prop} (ha : Lang n a P)
    (idx : Nat) (x y : State) :
    y ∈ matcher n (.seq (.group idx a) .eol) x ↔
      P x.rest ∧ y = ⟨[], x.captures.set (idx - 1) (some x.rest)⟩ := by
  rw [mem_seq_group ha]
  constructor
  · rintro ⟨w, t, hw, h1, hy⟩
    obtain ⟨h2, rfl⟩ := (mem_matcher_eol n _ y).1 hy
    have h2 : t = [] := h2
    subst h2
    rw [h1, List.append_nil]
    exact ⟨hw, rfl⟩
  · rintro ⟨hw, rfl⟩
    exact ⟨x.rest, [], hw, by simp, (mem_matcher_eol n _ _).2 ⟨rfl, rfl⟩⟩

theorem mem_opt_group_eol {n : Nat} {a : Regex} {P : JSString → Prop} (ha : Lang n a P)
    (hg : a.groups = []) (hne : ∀ w, P w → w ≠ []) (idx : Nat) (x y : State) :
    y ∈ matcher n (.seq (opt (.group idx a)) .eol) x ↔
      (x.rest = [] ∧ y = ⟨[], x.captures⟩) ∨
      (P x.rest ∧ y = ⟨[], (x.captures.set (idx - 1) none).set (idx - 1) (some x.rest)⟩) := by
  rw [mem_matcher_seq]
  constructor
  · rintro ⟨z, hz, hy⟩
    obtain ⟨h2, hyz⟩ := (mem_matcher_eol n _ y).1 hy
    rw [hyz]
    rcases (mem_matcher_opt n _ x z).1 hz with ⟨hz, _⟩ | rfl
    · right
      obtain ⟨z0, hz0, rfl⟩ := (mem_matcher_group n idx a _ z).1 hz
      obtain ⟨w, hw, h1, h3⟩ := (ha _ z0).1 hz0
      have h2 : z0.rest = [] := h2
      have h1 : x.rest = w ++ z0.rest := h1
      rw [h2, List.append_nil] at h1
      subst h1
      refine ⟨hw, ?_⟩
      simp only [h2, h3, Regex.groups, hg, clearCaptures, List.foldl_cons, List.foldl_nil,
        List.length_nil, Nat.sub_zero, List.take_length]
    · left
      exact ⟨h2, by rw [State.eq_iff]; exact ⟨h2.symm, rfl⟩⟩
  · rintro (⟨h1, rfl⟩ | ⟨hw, rfl⟩)
    · refine ⟨x, (mem_matcher_opt n _ x x).2 (Or.inr rfl), (mem_matcher_eol n _ _).2 ⟨h1, ?_⟩⟩
      rw [State.eq_iff]; exact ⟨h1, rfl⟩
    · refine ⟨_, (mem_matcher_opt n _ x _).2 (Or.inl ⟨(mem_matcher_group n idx a _ _).2
        ⟨⟨[], clearCaptures (Regex.group idx a).groups x.captures⟩,
          (ha _ _).2 ⟨x.rest, hw, by simp, rfl⟩, rfl⟩, ?_⟩),
        (mem_matcher_eol n _ _).2 ⟨rfl, ?_⟩⟩
      · simp only [List.length_nil]
        intro h
        exact hne _ hw (List.length_eq_zero.1 h.symm)
      · simp only [Regex.groups, hg, clearCaptures, List.foldl_cons, List.foldl_nil,
          List.length_nil, Nat.sub_zero, List.take_length]

/-! ## The two configured patterns -/

theorem mem_repo_regex (n : Nat) (target : JSString) (y : State) :
    y ∈ matcher n repo_regex ⟨target, [none, none, none, none, none]⟩ ↔
      target.length = n ∧
      ∃ scheme domain project repo tail,
        IsScheme scheme ∧ IsDomain domain ∧ (project ≠ [] ∧ NoSlash project) ∧ IsRepo repo ∧
        target = scheme ++ lit "://" ++ domain ++ lit "/" ++ project ++ lit "/" ++ repo ++ tail ∧
        ((tail = [] ∧ y = ⟨[], [some scheme, some domain, some project, some repo, none]⟩) ∨
         ((tail ≠ [] ∧ NoLineTerminator tail) ∧
            y = ⟨[], [some scheme, some domain, some project, some repo, some tail]⟩)) := by
  unfold repo_regex
  simp only [mem_seq_bol, mem_seq_group (lang_scheme n), mem_matcher_chars,
    mem_seq_group (lang_domain n), mem_seq_group (lang_segment n), mem_seq_group (lang_repo n),
    mem_opt_group_eol (lang_plus_dot n) rfl (fun w hw => hw.1)]
  constructor
  · rintro ⟨hn, w, t, hw, rfl, rest, rfl, w1, t, hw1, rfl, rest, rfl, w2, t, hw2, rfl, rest, rfl,
      w3, t, hw3, rfl, h⟩
    exact ⟨hn, w, w1, w2, w3, t, hw, hw1, hw2, hw3, by simp only [List.append_assoc], h⟩
  · rintro ⟨hn, scheme, domain, project, repo, tail, hs, hd, hp, hr, rfl, h⟩
    exact ⟨hn, scheme,
      lit "://" ++ (domain ++ (lit "/" ++ (project ++ (lit "/" ++ (repo ++ tail))))), hs,
      by simp only [List.append_assoc], _, rfl, domain, _, hd, rfl, _, rfl, project, _, hp, rfl,
      _, rfl, repo, tail, hr, rfl, h⟩

theorem mem_simple_regex (n : Nat) (target : JSString) (y : State) :
    y ∈ matcher n simple_regex ⟨target, [none, none, none]⟩ ↔
      target.length = n ∧
      ∃ scheme domain path,
        IsScheme scheme ∧ IsDomain domain ∧ (path ≠ [] ∧ NoLineTerminator path) ∧
        target = scheme ++ lit "://" ++ domain ++ lit "/" ++ path ∧
        y = ⟨[], [some scheme, some domain, some path]⟩ := by
  unfold simple_regex
  simp only [mem_seq_bol, mem_seq_group (lang_scheme n), mem_matcher_chars,
    mem_seq_group (lang_domain n), mem_group_eol (lang_plus_dot n)]
  constructor
  · rintro ⟨hn, w, t, hw, rfl, rest, rfl, w1, t, hw1, rfl, rest, rfl, hp, h⟩
    exact ⟨hn, w, w1, rest, hw, hw1, hp, by simp only [List.append_assoc], h⟩
  · rintro ⟨hn, scheme, domain, path, hs, hd, hp, rfl, h⟩
    exact ⟨hn, scheme, lit "://" ++ (domain ++ (lit "/" ++ path)), hs,
      by simp only [List.append_assoc], _, rfl, domain, _, hd, rfl, _, rfl, hp, h⟩


theorem head?_mem {α : Type} {l : List α} {a : α} (h : l.head? = some a) : a ∈ l := by
  cases l with
  | nil => simp at h
  | cons b l =>
    simp only [List.head?_cons, Option.some.injEq] at h
    subst h
    exact List.mem_cons_self _ _

theorem repo_match_some (target : JSString) (arr : List (Option JSString))
    (h : String_match target repo_regex = some arr) :
    ∃ scheme domain project repo tail,
      IsScheme scheme ∧ IsDomain domain ∧ (project ≠ [] ∧ NoSlash project) ∧ IsRepo repo ∧
      NoLineTerminator tail ∧
      target = scheme ++ lit "://" ++ domain ++ lit "/" ++ project ++ lit "/" ++ repo ++ tail ∧
      arr = [some target, some scheme, some domain, some project, some repo,
        if tail = [] then none else some tail] := by
  rw [String_match_anchored repo_regex rfl] at h
  obtain ⟨y, hy, rfl⟩ := matchAt_eq_some _ _ _ _ h
  have hy := head?_mem hy
  have hy : y ∈ matcher target.length repo_regex ⟨target, [none, none, none, none, none]⟩ := hy
  obtain ⟨_, scheme, domain, project, repo, tail, hs, hd, hp, hr, ht, hcase⟩ :=
    (mem_repo_regex _ _ _).1 hy
  refine ⟨scheme, domain, project, repo, tail, hs, hd, hp, hr, ?_, ht, ?_⟩
  · rcases hcase with ⟨rfl, _⟩ | ⟨⟨_, h1⟩, _⟩
    · intro c hc; simp at hc
    · exact h1
  · rcases hcase with ⟨h1, rfl⟩ | ⟨⟨h1, _⟩, rfl⟩
    · simp [h1]
    · simp [h1]

theorem repo_match_of_shape (target scheme domain project repo tail : JSString)
    (hs : IsScheme scheme) (hd : IsDomain domain) (hp : project ≠ [] ∧ NoSlash project)
    (hr : IsRepo repo) (htail : NoLineTerminator tail)
    (ht : target =
      scheme ++ lit "://" ++ domain ++ lit "/" ++ project ++ lit "/" ++ repo ++ tail) :
    ∃ arr, String_match target repo_regex = some arr := by
  rw [String_match_anchored repo_regex rfl]
  by_cases h0 : tail = []
  · exact matchAt_of_mem repo_regex _ _
      ⟨[], [some scheme, some domain, some project, some repo, none]⟩
      ((mem_repo_regex _ _ _).2 ⟨rfl, scheme, domain, project, repo, tail, hs, hd, hp, hr, ht,
        Or.inl ⟨h0, rfl⟩⟩)
  · exact matchAt_of_mem repo_regex _ _
      ⟨[], [some scheme, some domain, some project, some repo, some tail]⟩
      ((mem_repo_regex _ _ _).2 ⟨rfl, scheme, domain, project, repo, tail, hs, hd, hp, hr, ht,
        Or.inr ⟨⟨h0, htail⟩, rfl⟩⟩)

theorem simple_match_some (target : JSString) (arr : List (Option JSString))
    (h : String_match target simple_regex = some arr) :
    ∃ scheme domain path,
      IsScheme scheme ∧ IsDomain domain ∧ (path ≠ [] ∧ NoLineTerminator path) ∧
      target = scheme ++ lit "://" ++ domain ++ lit "/" ++ path ∧
      arr = [some target, some scheme, some domain, some path] := by
  rw [String_match_anchored simple_regex rfl] at h
  obtain ⟨y, hy, rfl⟩ := matchAt_eq_some _ _ _ _ h
  have hy := head?_mem hy
  have hy : y ∈ matcher target.length simple_regex ⟨target, [none, none, none]⟩ := hy
  obtain ⟨_, scheme, domain, path, hs, hd, hp, ht, rfl⟩ := (mem_simple_regex _ _ _).1 hy
  exact ⟨scheme, domain, path, hs, hd, hp, ht, by simp⟩

theorem simple_match_of_shape (target scheme domain path : JSString)
    (hs : IsScheme scheme) (hd : IsDomain domain) (hp : path ≠ [] ∧ NoLineTerminator path)
    (ht : target = scheme ++ lit "://" ++ domain ++ lit "/" ++ path) :
    ∃ arr, String_match target simple_regex = some arr := by
  rw [String_match_anchored simple_regex rfl]
  exact matchAt_of_mem simple_regex _ _ ⟨[], [some scheme, some domain, some path]⟩
    ((mem_simple_regex _ _ _).2 ⟨rfl, scheme, domain, path, hs, hd, hp, ht, rfl⟩)

/-- Every target a configured rule produces: the scheme and all that follows
the host are kept, the host becomes `github.com`. -/
theorem match_shape (target new_url : JSString) (rule : Regex × MapFn) (hr : rule ∈ mappings)
    (result : List (Option JSString)) (hres : String_match target rule.1 = some result)
    (hnew : new_url = rule.2 result.tail) :
    ∃ scheme domain rest,
      IsScheme scheme ∧ IsDomain domain ∧ rest ≠ [] ∧
      target = scheme ++ lit "://" ++ domain ++ lit "/" ++ rest ∧
      new_url = scheme ++ lit "://github.com/" ++ rest := by
  simp only [mappings, List.mem_cons, List.mem_singleton, List.not_mem_nil, or_false] at hr
  rcases hr with rfl | rfl
  · obtain ⟨scheme, domain, project, repo, tail, hs, hd, hp, hr, _, ht, rfl⟩ :=
      repo_match_some target result hres
    refine ⟨scheme, domain, project ++ lit "/" ++ repo ++ tail, hs, hd, ?_, ?_, ?_⟩
    · simp [hp.1]
    · rw [ht]; simp only [List.append_assoc]
    · rw [hnew]
      by_cases h0 : tail = []
      · simp [h0, param, template, orEmpty]
      · cases tail with
        | nil => exact absurd rfl h0
        | cons c cs => simp [param, template, orEmpty]
  · obtain ⟨scheme, domain, path, hs, hd, hp, ht, rfl⟩ := simple_match_some target result hres
    refine ⟨scheme, domain, path, hs, hd, hp.1, ht, ?_⟩
    rw [hnew]
    simp [param, template]

/-! ## The rule list in general -/

theorem get_redirection_url_none (mappings : List (Regex × MapFn)) (target : JSString)
    (h : ∀ rule ∈ mappings, String_match target rule.1 = none) :
    get_redirection_url mappings target = none := by
  induction mappings with
  | nil => rfl
  | cons rule later ih =>
    obtain ⟨regex, map_fn⟩ := rule
    simp only [get_redirection_url]
    have h0 : String_match target regex = none := h (regex, map_fn) (List.mem_cons_self _ _)
    rw [h0]
    exact ih fun rule hr => h rule (List.mem_cons_of_mem _ hr)

theorem get_redirection_url_some (mappings : List (Regex × MapFn)) (target : JSString)
    (h : ∃ rule ∈ mappings, String_match target rule.1 ≠ none) :
    ∃ new_url, get_redirection_url mappings target = some new_url := by
  induction mappings with
  | nil =>
    obtain ⟨rule, hr, _⟩ := h
    simp at hr
  | cons rule later ih =>
    obtain ⟨regex, map_fn⟩ := rule
    simp only [get_redirection_url]
    cases h0 : String_match target regex with
    | some result => exact ⟨_, rfl⟩
    | none =>
      simp only
      apply ih
      obtain ⟨rule, hr, hne⟩ := h
      rcases List.mem_cons.1 hr with rfl | hr
      · exact absurd h0 hne
      · exact ⟨rule, hr, hne⟩

theorem get_redirection_url_fired (mappings : List (Regex × MapFn)) (target new_url : JSString)
    (h : get_redirection_url mappings target = some new_url) :
    ∃ rule ∈ mappings, ∃ result,
      String_match target rule.1 = some result ∧ new_url = rule.2 result.tail := by
  induction mappings with
  | nil => simp [get_redirection_url] at h
  | cons rule later ih =>
    obtain ⟨regex, map_fn⟩ := rule
    simp only [get_redirection_url] at h
    cases h0 : String_match target regex with
    | some result =>
      rw [h0] at h
      simp only [Option.some.injEq] at h
      exact ⟨(regex, map_fn), List.mem_cons_self _ _, result, h0, h.symm⟩
    | none =>
      rw [h0] at h
      obtain ⟨rule, hr, hres⟩ := ih h
      exact ⟨rule, List.mem_cons_of_mem _ hr, hres⟩

theorem String_match_whole (regex : Regex) (hbol : regex.startsWithBol = true)
    (heol : regex.endsWithEol = true) (target : JSString) (result : List (Option JSString))
    (h : String_match target regex = some result) :
    ∃ captures, result = some target :: captures := by
  rw [String_match_anchored regex hbol] at h
  obtain ⟨y, hy, rfl⟩ := matchAt_eq_some _ _ _ _ h
  have hrest := endsWithEol_sound _ regex heol _ y (head?_mem hy)
  exact ⟨y.captures, by simp [hrest]⟩


theorem rule_shape (target new_url : JSString) (rules : List (Regex × MapFn))
    (h : get_redirection_url rules target = some new_url)
    (hsub : ∀ rule ∈ rules, rule ∈ mappings) :
    ∃ scheme domain rest,
      IsScheme scheme ∧ IsDomain domain ∧ rest ≠ [] ∧
      target = scheme ++ lit "://" ++ domain ++ lit "/" ++ rest ∧
      new_url = scheme ++ lit "://github.com/" ++ rest := by
  obtain ⟨rule, hr, result, hres, hnew⟩ := get_redirection_url_fired rules target new_url h
  exact match_shape target new_url rule (hsub rule hr) result hres hnew

theorem redirect_shape (target new_url : JSString)
    (h : get_redirection_url mappings target = some new_url) :
    ∃ scheme domain rest,
      IsScheme scheme ∧ IsDomain domain ∧ rest ≠ [] ∧
      target = scheme ++ lit "://" ++ domain ++ lit "/" ++ rest ∧
      new_url = scheme ++ lit "://github.com/" ++ rest :=
  rule_shape target new_url mappings h (fun _ hr => hr)

/-! ## The pattern of scenario 1 -/

theorem mem_example_regex (n : Nat) (target : JSString) (y : State) :
    y ∈ matcher n example_regex ⟨target, [none, none]⟩ ↔
      target.length = n ∧
      ∃ s c g1 g2 d sl,
        (s = [] ∨ s = [115]) ∧ isLineTerminator c = false ∧
        (g1 ≠ [] ∧ NoLineTerminator g1) ∧ (g2 ≠ [] ∧ NoLineTerminator g2) ∧
        isLineTerminator d = false ∧ (sl = [] ∨ sl = [47]) ∧
        target = lit "http" ++ s ++ lit "://example" ++ [c] ++ lit "com/" ++ g1 ++ lit "/" ++
          g2 ++ [d] ++ lit "git" ++ sl ∧
        y = ⟨[], [some g1, some g2]⟩ := by
  unfold example_regex
  simp only [mem_seq_bol, mem_matcher_chars,
    mem_seq_lang (lang_opt (lang_char n 115) rfl : Lang n (opt (ch 's')) _),
    mem_seq_lang (lang_dot n), mem_seq_group (lang_plus_dot n),
    mem_seq_lang (lang_opt (lang_char n 47) rfl : Lang n (opt (ch '/')) _), mem_matcher_eol]
  constructor
  · rintro ⟨hn, rest, rfl, s, t, hs, rfl, rest, rfl, w, t, ⟨c, hc, rfl⟩, rfl, rest, rfl,
      g1, t, hg1, rfl, rest, rfl, g2, t, hg2, rfl, w, t, ⟨d, hd, rfl⟩, rfl, rest, rfl,
      sl, t, hsl, rfl, rfl, rfl⟩
    refine ⟨hn, s, c, g1, g2, d, sl, ?_, hc, hg1, hg2, hd, ?_, ?_, rfl⟩
    · rcases hs with rfl | ⟨rfl, _⟩
      · exact Or.inl rfl
      · exact Or.inr rfl
    · rcases hsl with rfl | ⟨rfl, _⟩
      · exact Or.inl rfl
      · exact Or.inr rfl
    · simp only [List.append_assoc, List.append_nil]
  · rintro ⟨hn, s, c, g1, g2, d, sl, hs, hc, hg1, hg2, hd, hsl, rfl, rfl⟩
    refine ⟨hn, _, by simp only [List.append_assoc]; rfl, s, _, ?_, rfl, _, rfl, [c], _,
      ⟨c, hc, rfl⟩, rfl, _, rfl, g1, _, hg1, rfl, _, rfl, g2, _, hg2, rfl, [d], _, ⟨d, hd, rfl⟩,
      rfl, _, rfl, sl, [], ?_, by simp, rfl, rfl⟩
    · rcases hs with rfl | rfl
      · exact Or.inl rfl
      · exact Or.inr ⟨rfl, by simp⟩
    · rcases hsl with rfl | rfl
      · exact Or.inl rfl
      · exact Or.inr ⟨rfl, by simp⟩

theorem split_first_slash (a b x y : JSString) (ha : NoSlash a) (hy : NoSlash y)
    (h : a ++ 47 :: y = b ++ 47 :: x) : b = a ∧ x = y := by
  rcases List.append_eq_append_iff.1 h with ⟨t, hb, hy2⟩ | ⟨t, ha2, hx2⟩
  · cases t with
    | nil =>
      simp only [List.nil_append, List.cons.injEq, true_and] at hy2
      exact ⟨by simpa using hb, hy2.symm⟩
    | cons e t =>
      simp only [List.cons_append, List.cons.injEq] at hy2
      exact absurd rfl (hy 47 (by rw [hy2.2]; simp))
  · cases t with
    | nil =>
      simp only [List.nil_append, List.cons.injEq, true_and] at hx2
      exact ⟨by simpa using ha2.symm, hx2⟩
    | cons e t =>
      simp only [List.cons_append, List.cons.injEq] at hx2
      exact absurd hx2.1.symm (ha e (by rw [ha2]; simp))


theorem example_match_some (target : JSString) (arr : List (Option JSString))
    (h : String_match target example_regex = some arr) :
    ∃ s c g1 g2 d sl,
      (s = [] ∨ s = [115]) ∧ isLineTerminator c = false ∧
      (g1 ≠ [] ∧ NoLineTerminator g1) ∧ (g2 ≠ [] ∧ NoLineTerminator g2) ∧
      isLineTerminator d = false ∧ (sl = [] ∨ sl = [47]) ∧
      target = lit "http" ++ s ++ lit "://example" ++ [c] ++ lit "com/" ++ g1 ++ lit "/" ++
        g2 ++ [d] ++ lit "git" ++ sl ∧
      arr = [some target, some g1, some g2] := by
  rw [String_match_anchored example_regex rfl] at h
  obtain ⟨y, hy, rfl⟩ := matchAt_eq_some _ _ _ _ h
  have hy := head?_mem hy
  have hy : y ∈ matcher target.length example_regex ⟨target, [none, none]⟩ := hy
  obtain ⟨_, s, c, g1, g2, d, sl, hs, hc, hg1, hg2, hd, hsl, ht, rfl⟩ :=
    (mem_example_regex _ _ _).1 hy
  exact ⟨s, c, g1, g2, d, sl, hs, hc, hg1, hg2, hd, hsl, ht, by simp⟩

theorem example_match_repo_url (project repo : JSString)
    (hp : project ≠ [] ∧ NoSlash project ∧ NoLineTerminator project)
    (hr : repo ≠ [] ∧ NoSlash repo ∧ NoLineTerminator repo) :
    String_match (lit "https://example.com/" ++ project ++ lit "/" ++ repo ++ lit ".git")
      example_regex =
    some [some (lit "https://example.com/" ++ project ++ lit "/" ++ repo ++ lit ".git"),
      some project, some repo] := by
  have hex : ∃ arr, String_match
      (lit "https://example.com/" ++ project ++ lit "/" ++ repo ++ lit ".git")
      example_regex = some arr := by
    rw [String_match_anchored example_regex rfl]
    refine matchAt_of_mem example_regex _ _ ⟨[], [some project, some repo]⟩
      ((mem_example_regex _ _ _).2 ⟨rfl, [115], 46, project, repo, 46, [], Or.inr rfl,
        by decide, ⟨hp.1, hp.2.2⟩, ⟨hr.1, hr.2.2⟩, by decide, Or.inl rfl, ?_, rfl⟩)
    simp [lit]
  obtain ⟨arr, harr⟩ := hex
  obtain ⟨s, c, g1, g2, d, sl, hs, _, _, _, _, hsl, ht, rfl⟩ := example_match_some _ _ harr
  rw [harr]
  have hnoslash : NoSlash (repo ++ [46, 103, 105, 116]) := by
    intro e he
    rcases List.mem_append.1 he with he | he
    · exact hr.2.1 e he
    · simp only [List.mem_cons, List.mem_singleton, List.not_mem_nil, or_false] at he
      omega
  have hg : g1 = project ∧ g2 ++ d :: (lit "git" ++ sl) = repo ++ [46, 103, 105, 116] := by
    rcases hs with rfl | rfl
    · simp [lit] at ht
    · apply split_first_slash project g1 _ _ hp.2.1 hnoslash
      have ht2 := ht
      simp only [lit, String.toList, List.map_cons, List.map_nil, List.append_assoc,
        List.cons_append, List.nil_append, List.cons.injEq, Char.reduceToNat, true_and] at ht2
      simp only [lit, String.toList, List.map_cons, List.map_nil, List.append_assoc,
        List.cons_append, List.nil_append, Char.reduceToNat]
      exact ht2.2
  obtain ⟨rfl, hg2⟩ := hg
  have hrepo : g2 = repo := by
    rcases hsl with rfl | rfl
    · refine List.append_inj_left' hg2 ?_
      simp [lit]
    · exfalso
      have h47 : (47 : Nat) ∈ repo ++ [46, 103, 105, 116] := by
        rw [← hg2]
        simp [lit]
      exact hnoslash 47 h47 rfl
  rw [hrepo]


/-! ## The state the matcher returns on a repo URL without tail -/

theorem head?_flatMap_skip {α β : Type} (l1 : List α) (z : α) (l2 : List α) (f : α → List β)
    (y : β) (h1 : ∀ a ∈ l1, f a = []) (h2 : (f z).head? = some y) :
    ((l1 ++ z :: l2).flatMap f).head? = some y := by
  induction l1 with
  | nil =>
    simp only [List.nil_append, List.flatMap_cons]
    cases hfz : f z with
    | nil => rw [hfz] at h2; simp at h2
    | cons b bs => rw [hfz] at h2; simpa using h2
  | cons a l1 ih =>
    simp only [List.cons_append, List.flatMap_cons, h1 a (List.mem_cons_self _ _),
      List.nil_append]
    exact ih fun b hb => h1 b (List.mem_cons_of_mem _ hb)

theorem head?_seq (n : Nat) (a b : Regex) (x y z : State) (l1 l2 : List State)
    (ha : matcher n a x = l1 ++ z :: l2) (hskip : ∀ w ∈ l1, matcher n b w = [])
    (hb : (matcher n b z).head? = some y) :
    (matcher n (.seq a b) x).head? = some y := by
  simp only [matcher, ha]
  exact head?_flatMap_skip l1 z l2 _ y hskip hb



theorem CharacterSetMatcher_rest_le (p : Nat → Bool) (x y : State)
    (hy : y ∈ CharacterSetMatcher p x) : y.rest.length ≤ x.rest.length := by
  obtain ⟨c, _, h1, _⟩ := (mem_CharacterSetMatcher p x y).1 hy
  rw [h1]; simp

theorem star_step (p : Nat → Bool) (caps : List (Option JSString)) (c : Nat) (cs : JSString)
    (hc : p c = true) (fuel min : Nat) :
    RepeatMatcher (CharacterSetMatcher p) [] true (fuel + 1) min none ⟨c :: cs, caps⟩ =
      RepeatMatcher (CharacterSetMatcher p) [] true fuel (min - 1) none ⟨cs, caps⟩ ++
        (if min ≠ 0 then [] else [⟨c :: cs, caps⟩]) := by
  by_cases hmin : min = 0
  · simp [RepeatMatcher, clearCaptures, CharacterSetMatcher, hc, hmin]
  · simp [RepeatMatcher, clearCaptures, CharacterSetMatcher, hc, hmin]

theorem star_run (p : Nat → Bool) (caps : List (Option JSString)) (v u : JSString)
    (hu : ∀ c ∈ u, p c = true) :
    ∀ fuel fuel2 : Nat, (u ++ v).length < fuel → v.length < fuel2 →
      ∃ l2, RepeatMatcher (CharacterSetMatcher p) [] true fuel 0 none ⟨u ++ v, caps⟩ =
        RepeatMatcher (CharacterSetMatcher p) [] true fuel2 0 none ⟨v, caps⟩ ++ l2 := by
  induction u with
  | nil =>
    intro fuel fuel2 h1 h2
    refine ⟨[], ?_⟩
    rw [List.append_nil]
    exact RepeatMatcher_fuel _ _ _ (CharacterSetMatcher_rest_le p) fuel fuel2 0 none _
      (by simpa using h1) (by simpa using h2)
  | cons c u ih =>
    intro fuel fuel2 h1 h2
    cases fuel with
    | zero => simp at h1
    | succ fuel =>
      obtain ⟨l2, hl2⟩ := ih (fun d hd => hu d (List.mem_cons_of_mem _ hd)) fuel fuel2
        (by simp only [List.cons_append, List.length_cons] at h1; omega) h2
      refine ⟨l2 ++ [⟨c :: (u ++ v), caps⟩], ?_⟩
      rw [List.cons_append, star_step p caps c (u ++ v) (hu c (List.mem_cons_self _ _))]
      simp only [Nat.sub_zero, ne_eq, not_true_eq_false, if_false] at hl2 ⊢
      rw [hl2, List.append_assoc]

theorem plus_run (p : Nat → Bool) (caps : List (Option JSString)) (v u : JSString)
    (hu0 : u ≠ []) (hu : ∀ c ∈ u, p c = true) (fuel fuel2 : Nat)
    (h1 : (u ++ v).length + 1 < fuel) (h2 : v.length < fuel2) :
    ∃ l2, RepeatMatcher (CharacterSetMatcher p) [] true fuel 1 none ⟨u ++ v, caps⟩ =
      RepeatMatcher (CharacterSetMatcher p) [] true fuel2 0 none ⟨v, caps⟩ ++ l2 := by
  cases u with
  | nil => exact absurd rfl hu0
  | cons c u =>
    cases fuel with
    | zero => simp at h1
    | succ fuel =>
      obtain ⟨l2, hl2⟩ := star_run p caps v u (fun d hd => hu d (List.mem_cons_of_mem _ hd))
        fuel fuel2 (by simp only [List.cons_append, List.length_cons] at h1; omega) h2
      refine ⟨l2, ?_⟩
      rw [List.cons_append, star_step p caps c (u ++ v) (hu c (List.mem_cons_self _ _))]
      simp only [Nat.sub_self, ne_eq, one_ne_zero, not_false_eq_true, if_true, List.append_nil]
      exact hl2

theorem star_split (p : Nat → Bool) (caps : List (Option JSString)) (v : JSString) (fuel : Nat) :
    ∃ l1, RepeatMatcher (CharacterSetMatcher p) [] true (fuel + 1) 0 none ⟨v, caps⟩ =
        l1 ++ [⟨v, caps⟩] ∧ ∀ z ∈ l1, z.rest.length < v.length := by
  refine ⟨((CharacterSetMatcher p ⟨v, caps⟩).filter fun y =>
      !((0 : Nat) == 0 && y.rest.length == v.length)).flatMap
      (fun y => RepeatMatcher (CharacterSetMatcher p) [] true fuel 0 none y), ?_, ?_⟩
  · simp [RepeatMatcher, clearCaptures]
  · intro z hz
    obtain ⟨w, hw, hz⟩ := List.mem_flatMap.1 hz
    obtain ⟨hw1, hw2⟩ := List.mem_filter.1 hw
    have h1 := CharacterSetMatcher_rest_le p _ w hw1
    have h2 := RepeatMatcher_rest_le _ _ _ (CharacterSetMatcher_rest_le p) _ _ _ w z hz
    simp only [beq_self_eq_true, Bool.true_and, Bool.not_eq_true', beq_eq_false_iff_ne,
      ne_eq] at hw2
    have h1 : w.rest.length ≤ v.length := h1
    omega

theorem star_stop (p : Nat → Bool) (caps : List (Option JSString)) (v : JSString) (fuel : Nat)
    (hv : ∀ c cs, v = c :: cs → p c = false) :
    RepeatMatcher (CharacterSetMatcher p) [] true (fuel + 1) 0 none ⟨v, caps⟩ = [⟨v, caps⟩] := by
  cases v with
  | nil => simp [RepeatMatcher, clearCaptures, CharacterSetMatcher]
  | cons c cs =>
    simp [RepeatMatcher, clearCaptures, CharacterSetMatcher, hv c cs rfl]


theorem matcher_chars_eq (n : Nat) (s : String) (r : Regex) (rest : JSString)
    (caps : List (Option JSString)) :
    matcher n (chars s r) ⟨lit s ++ rest, caps⟩ = matcher n r ⟨rest, caps⟩ := by
  unfold chars lit
  generalize s.toList = l
  induction l with
  | nil => rfl
  | cons c l ih =>
    simp only [List.foldr_cons, List.map_cons, List.cons_append, matcher, ch,
      CharacterSetMatcher, beq_self_eq_true, if_true, List.flatMap_cons, List.flatMap_nil,
      List.append_nil]
    exact ih

theorem head?_seq_head (n : Nat) (a b : Regex) (x y z : State)
    (ha : (matcher n a x).head? = some z) (hb : (matcher n b z).head? = some y) :
    (matcher n (.seq a b) x).head? = some y := by
  cases hl : matcher n a x with
  | nil => rw [hl] at ha; simp at ha
  | cons z2 l =>
    rw [hl] at ha
    simp only [List.head?_cons, Option.some.injEq] at ha
    subst ha
    simp only [matcher, hl, List.flatMap_cons]
    cases hl2 : matcher n b z2 with
    | nil => rw [hl2] at hb; simp at hb
    | cons y2 l2 => rw [hl2] at hb; simpa using hb

theorem head?_group (n idx : Nat) (r : Regex) (x z : State)
    (hr : (matcher n r x).head? = some z) :
    (matcher n (.group idx r) x).head? =
      some ⟨z.rest, z.captures.set (idx - 1)
        (some (x.rest.take (x.rest.length - z.rest.length)))⟩ := by
  simp only [matcher, List.head?_map, hr, Option.map_some']

theorem head?_opt_char_taken (n c : Nat) (cs : JSString) (caps : List (Option JSString)) :
    (matcher n (opt (.char c)) ⟨c :: cs, caps⟩).head? = some ⟨cs, caps⟩ := by
  simp [opt, matcher, RepeatMatcher, RepeatMatcher_max_zero, CharacterSetMatcher, clearCaptures,
    Regex.groups]

theorem matcher_opt_char_skipped (n c : Nat) (rest : JSString) (caps : List (Option JSString))
    (h : ∀ cs, rest ≠ c :: cs) :
    matcher n (opt (.char c)) ⟨rest, caps⟩ = [⟨rest, caps⟩] := by
  cases rest with
  | nil => simp [opt, matcher, RepeatMatcher, CharacterSetMatcher, clearCaptures, Regex.groups]
  | cons d ds =>
    have hd : d ≠ c := fun hdc => h ds (by rw [hdc])
    simp [opt, matcher, RepeatMatcher, CharacterSetMatcher, clearCaptures, Regex.groups, hd]

theorem head?_scheme_group (n : Nat) (scheme rest : JSString) (caps : List (Option JSString))
    (hs : IsScheme scheme) :
    (matcher n (.group 1 (chars "http" (opt (ch 's')))) ⟨scheme ++ (lit "://" ++ rest), caps⟩).head?
      = some ⟨lit "://" ++ rest, caps.set 0 (some scheme)⟩ := by
  have hinner : (matcher n (chars "http" (opt (ch 's')))
      ⟨scheme ++ (lit "://" ++ rest), caps⟩).head? = some ⟨lit "://" ++ rest, caps⟩ := by
    rcases hs with rfl | rfl
    · rw [matcher_chars_eq, show ch 's' = .char 115 from rfl,
        matcher_opt_char_skipped n 115 _ caps (by intro cs h; simp [lit] at h)]
      rfl
    · rw [show lit "https" ++ (lit "://" ++ rest) = lit "http" ++ (115 :: (lit "://" ++ rest))
        from rfl, matcher_chars_eq]
      exact head?_opt_char_taken n 115 _ caps
  rw [head?_group n 1 _ _ _ hinner]
  simp only [Nat.sub_self, take_consumed]

theorem head?_domain_group (n : Nat) (rest : JSString) (caps : List (Option JSString)) :
    (matcher n (.group 2 (chars "github12321" (.seq .dot (chars "co" (ch 'm')))))
      ⟨lit "github12321.com" ++ rest, caps⟩).head?
      = some ⟨rest, caps.set 1 (some (lit "github12321.com"))⟩ := by
  have hinner : (matcher n (chars "github12321" (.seq .dot (chars "co" (ch 'm'))))
      ⟨lit "github12321.com" ++ rest, caps⟩).head? = some ⟨rest, caps⟩ := by
    rw [show lit "github12321.com" ++ rest = lit "github12321" ++ (46 :: (lit "co" ++ (109 :: rest)))
      from rfl, matcher_chars_eq]
    apply head?_seq_head n _ _ _ _ ⟨lit "co" ++ (109 :: rest), caps⟩
    · simp [matcher, CharacterSetMatcher, isLineTerminator]
    · rw [matcher_chars_eq]
      simp [matcher, CharacterSetMatcher, ch]
  rw [head?_group n 2 _ _ _ hinner]
  simp only [take_consumed]



theorem classMatches_notSlash (c : Nat) : classMatches true [(47, 47)] c = true ↔ c ≠ 47 := by
  simp only [classMatches, List.any_cons, List.any_nil, Bool.or_false, bne_iff_ne, ne_eq,
    Bool.and_eq_true, decide_eq_true_eq, Bool.not_eq_true]
  constructor
  · intro h1 h2; subst h2; simp at h1
  · intro h1
    simp only [Bool.and_eq_true, decide_eq_true_eq, not_and, not_le]
    omega

theorem head?_segment_group (n : Nat) (project rest : JSString) (caps : List (Option JSString))
    (hp : project ≠ [] ∧ NoSlash project) :
    (matcher n (.group 3 (plus notSlash)) ⟨project ++ (lit "/" ++ rest), caps⟩).head?
      = some ⟨lit "/" ++ rest, caps.set 2 (some project)⟩ := by
  have hinner : (matcher n (plus notSlash) ⟨project ++ (lit "/" ++ rest), caps⟩).head? =
      some ⟨lit "/" ++ rest, caps⟩ := by
    obtain ⟨l2, hl2⟩ := plus_run (classMatches true [(47, 47)]) caps (lit "/" ++ rest) project
      hp.1 (fun c hc => (classMatches_notSlash c).2 (hp.2 c hc))
      ((project ++ (lit "/" ++ rest)).length + 1 + 1) ((lit "/" ++ rest).length + 1)
      (by omega) (by omega)
    rw [star_stop _ caps _ _ (by
      intro c cs h
      have hc : c = 47 := by
        have h2 : (47 : Nat) :: rest = c :: cs := h
        simp only [List.cons.injEq] at h2
        exact h2.1.symm
      subst hc
      decide)] at hl2
    show (RepeatMatcher (CharacterSetMatcher (classMatches true [(47, 47)])) [] true
      ((project ++ (lit "/" ++ rest)).length + 1 + 1) 1 none
      ⟨project ++ (lit "/" ++ rest), caps⟩).head? = _
    rw [hl2]
    rfl
  rw [head?_group n 3 _ _ _ hinner]
  simp only [take_consumed]

theorem matcher_dot_git_short (n : Nat) (w : State) (hw : w.rest.length < 4) :
    matcher n (.seq .dot (chars "git" (opt (ch '/')))) w = [] := by
  apply List.eq_nil_iff_forall_not_mem.2
  intro y hy
  obtain ⟨u, ⟨a, b, ⟨c, _, rfl⟩, ⟨v, _, rfl⟩, rfl⟩, h1, _⟩ :=
    (lang_seq (lang_dot n) (lang_chars "git" (lang_opt (lang_char n 47) rfl)) w y).1 hy
  have := congrArg List.length h1
  simp [lit] at this
  omega

theorem head?_repo_group (n : Nat) (repo : JSString) (caps : List (Option JSString))
    (hr : repo ≠ [] ∧ NoSlash repo) :
    (matcher n (.group 4 (.seq (plus notSlash) (.seq .dot (chars "git" (opt (ch '/'))))))
      ⟨repo ++ lit ".git", caps⟩).head?
      = some ⟨[], caps.set 3 (some (repo ++ lit ".git"))⟩ := by
  have hinner : (matcher n (.seq (plus notSlash) (.seq .dot (chars "git" (opt (ch '/')))))
      ⟨repo ++ lit ".git", caps⟩).head? = some ⟨[], caps⟩ := by
    obtain ⟨l2, hl2⟩ := plus_run (classMatches true [(47, 47)]) caps (lit ".git") repo
      hr.1 (fun c hc => (classMatches_notSlash c).2 (hr.2 c hc))
      ((repo ++ lit ".git").length + 1 + 1) ((lit ".git").length + 1) (by omega) (by omega)
    obtain ⟨l1, hl1, hshort⟩ := star_split (classMatches true [(47, 47)]) caps (lit ".git")
      (lit ".git").length
    rw [hl1] at hl2
    have hplus : matcher n (plus notSlash) ⟨repo ++ lit ".git", caps⟩ =
        l1 ++ ⟨lit ".git", caps⟩ :: l2 := by
      show RepeatMatcher (CharacterSetMatcher (classMatches true [(47, 47)])) [] true
        ((repo ++ lit ".git").length + 1 + 1) 1 none ⟨repo ++ lit ".git", caps⟩ = _
      rw [hl2]
      simp
    refine head?_seq n _ _ _ _ _ l1 l2 hplus
      (fun w hw => matcher_dot_git_short n w (hshort w hw)) ?_
    apply head?_seq_head n _ _ _ _ ⟨lit "git", caps⟩
    · simp [matcher, CharacterSetMatcher, isLineTerminator, lit]
    · rw [show lit "git" = lit "git" ++ [] from rfl, matcher_chars_eq,
        show ch '/' = .char 47 from rfl,
        matcher_opt_char_skipped n 47 [] caps (by intro cs h; simp at h)]
      rfl
  rw [head?_group n 4 _ _ _ hinner]
  simp only [List.length_nil, Nat.sub_zero, List.take_length]

theorem head?_no_tail (n : Nat) (caps : List (Option JSString)) :
    (matcher n (.seq (opt (.group 5 (plus .dot))) .eol) ⟨[], caps⟩).head? = some ⟨[], caps⟩ := by
  have hmem : ∀ y, y ∈ matcher n (.seq (opt (.group 5 (plus .dot))) .eol) ⟨[], caps⟩ ↔
      y = ⟨[], caps⟩ := by
    intro y
    rw [mem_opt_group_eol (lang_plus_dot n) rfl (fun w hw => hw.1)]
    constructor
    · rintro (⟨_, h⟩ | ⟨⟨h, _⟩, _⟩)
      · exact h
      · exact absurd rfl h
    · intro h
      exact Or.inl ⟨rfl, h⟩
  cases hl : matcher n (.seq (opt (.group 5 (plus .dot))) .eol) ⟨[], caps⟩ with
  | nil =>
    have := (hmem ⟨[], caps⟩).2 rfl
    rw [hl] at this
    simp at this
  | cons y l =>
    have := (hmem y).1 (by rw [hl]; exact List.mem_cons_self _ _)
    rw [this]
    rfl

theorem head?_bol (n : Nat) (x : State) (h : x.rest.length = n) :
    (matcher n .bol x).head? = some x := by
  simp [matcher, h]

theorem head?_repo_regex_no_tail (scheme project repo : JSString) (hs : IsScheme scheme)
    (hp : project ≠ [] ∧ NoSlash project) (hr : repo ≠ [] ∧ NoSlash repo) :
    (matcher
      (scheme ++ (lit "://" ++ (lit "github12321.com" ++ (lit "/" ++ (project ++ (lit "/" ++
        (repo ++ lit ".git"))))))).length
      repo_regex
      ⟨scheme ++ (lit "://" ++ (lit "github12321.com" ++ (lit "/" ++ (project ++ (lit "/" ++
        (repo ++ lit ".git")))))), [none, none, none, none, none]⟩).head? =
    some ⟨[], [some scheme, some (lit "github12321.com"), some project,
      some (repo ++ lit ".git"), none]⟩ := by
  unfold repo_regex
  refine head?_seq_head _ _ _ _ _ _ (head?_bol _ _ rfl) ?_
  refine head?_seq_head _ _ _ _ _ _ (head?_scheme_group _ scheme _ _ hs) ?_
  rw [matcher_chars_eq]
  refine head?_seq_head _ _ _ _ _ _ (head?_domain_group _ _ _) ?_
  rw [matcher_chars_eq]
  refine head?_seq_head _ _ _ _ _ _ (head?_segment_group _ project _ _ hp) ?_
  rw [matcher_chars_eq]
  refine head?_seq_head _ _ _ _ _ _ (head?_repo_group _ repo _ hr) ?_
  exact head?_no_tail _ _

theorem repo_match_no_tail (scheme project repo : JSString) (hs : IsScheme scheme)
    (hp : project ≠ [] ∧ NoSlash project) (hr : repo ≠ [] ∧ NoSlash repo) :
    String_match (scheme ++ lit "://github12321.com/" ++ project ++ lit "/" ++ repo ++ lit ".git")
      repo_regex =
    some [some (scheme ++ lit "://github12321.com/" ++ project ++ lit "/" ++ repo ++ lit ".git"),
      some scheme, some (lit "github12321.com"), some project, some (repo ++ lit ".git"),
      none] := by
  have hurl : scheme ++ lit "://github12321.com/" ++ project ++ lit "/" ++ repo ++ lit ".git" =
      scheme ++ (lit "://" ++ (lit "github12321.com" ++ (lit "/" ++ (project ++ (lit "/" ++
        (repo ++ lit ".git")))))) := by
    simp [lit]
  rw [hurl, String_match_anchored repo_regex rfl]
  have hhead := head?_repo_regex_no_tail scheme project repo hs hp hr
  have hhead2 : (matcher
      (scheme ++ (lit "://" ++ (lit "github12321.com" ++ (lit "/" ++ (project ++ (lit "/" ++
        (repo ++ lit ".git"))))))).length
      repo_regex
      ⟨scheme ++ (lit "://" ++ (lit "github12321.com" ++ (lit "/" ++ (project ++ (lit "/" ++
        (repo ++ lit ".git")))))), List.replicate repo_regex.groups.length none⟩).head? =
    some ⟨[], [some scheme, some (lit "github12321.com"), some project,
      some (repo ++ lit ".git"), none]⟩ := hhead
  simp only [matchAt, hhead2, List.length_nil, Nat.sub_zero, List.take_length]


/-! ## Reading a URL back from its shape -/

theorem shape_unique (s1 s2 d1 d2 r1 r2 : JSString) (hs1 : IsScheme s1) (hs2 : IsScheme s2)
    (hd1 : IsDomain d1) (hd2 : IsDomain d2)
    (h : s1 ++ lit "://" ++ d1 ++ lit "/" ++ r1 = s2 ++ lit "://" ++ d2 ++ lit "/" ++ r2) :
    s1 = s2 ∧ d1 = d2 ∧ r1 = r2 := by
  obtain ⟨c1, _, rfl⟩ := hd1
  obtain ⟨c2, _, rfl⟩ := hd2
  rcases hs1 with rfl | rfl <;> rcases hs2 with rfl | rfl <;>
    simp only [lit, String.toList, List.map_cons, List.map_nil, List.append_assoc,
      List.cons_append, List.nil_append, List.cons.injEq, Char.reduceToNat, true_and] at h <;>
    first
    | exact ⟨rfl, by rw [h.1], h.2⟩
    | (exfalso; omega)

theorem scheme_cancel (port : Nat) (s d x r : JSString) (hs : IsScheme s) (hd : IsDomain d)
    (h : template (protocol port) ++ lit "://" ++ x = s ++ lit "://" ++ d ++ lit "/" ++ r) :
    x = d ++ lit "/" ++ r := by
  obtain ⟨c, _, rfl⟩ := hd
  have hp : protocol port = some (lit "http") ∨ protocol port = some (lit "https") ∨
      protocol port = none := by
    unfold protocol
    by_cases h80 : port = 80
    · simp [h80]
    · by_cases h443 : port = 443
      · simp [h443]
      · simp [h80, h443]
  rcases hp with hp | hp | hp <;> rcases hs with rfl | rfl <;>
    simp only [hp, template, lit, String.toList, List.map_cons, List.map_nil, List.append_assoc,
      List.cons_append, List.nil_append, List.cons.injEq, Char.reduceToNat, true_and] at h ⊢ <;>
    first
    | exact h
    | (exfalso; omega)


/-! ## Some requests, evaluated -/

theorem scenario_randompage :
    request_callback (protocol 443) mappings ⟨some (lit "github12321.com"), lit "/randompage"⟩ =
      { statusCode := 307, headers := [(lit "location", lit "https://github.com/randompage")],
        body := [] } := by
  decide

theorem repo_url_with_tail_captures :
    String_match (lit "https://github12321.com/foo/bar.git/baz") repo_regex =
      some [some (lit "https://github12321.com/foo/bar.git/baz"), some (lit "https"),
        some (lit "github12321.com"), some (lit "foo"), some (lit "bar.git/"),
        some (lit "baz")] := by
  decide

theorem unescaped_dot_host :
    request_callback (protocol 443) mappings ⟨some (lit "github12321xcom"), lit "/a"⟩ =
      { statusCode := 307, headers := [(lit "location", lit "https://github.com/a")],
        body := [] } := by
  decide

theorem line_terminator_in_path :
    request_callback (protocol 80) mappings ⟨some (lit "github12321.com"), [47, 97, 10]⟩ =
      { statusCode := 404, headers := [], body := [] } := by
  decide

theorem missing_host_header :
    get_full_url (protocol 443) ⟨none, lit "/a"⟩ = lit "https://undefined/a" := by
  decide

theorem half_anchored_rule_fires :
    RegExpCreate (lit "^a|b$") = some (.alt (.seq .bol (ch 'a')) (.seq (ch 'b') .eol)) ∧
    (Regex.alt (.seq .bol (ch 'a')) (.seq (ch 'b') .eol)).startsWithBol = false ∧
    (Regex.alt (.seq .bol (ch 'a')) (.seq (ch 'b') .eol)).endsWithEol = false ∧
    String_match (lit "https://evil.example/xb") (.alt (.seq .bol (ch 'a')) (.seq (ch 'b') .eol)) =
      some [some (lit "b")] ∧
    get_redirection_url half_anchored_mappings (lit "https://evil.example/xb") =
      some (lit "https://real.com/") := by
  decide

theorem configured_patterns_anchored :
    ∀ rule ∈ mappings, rule.1.startsWithBol = true ∧ rule.1.endsWithEol = true := by
  decide

theorem alternatives_anchored_example :
    RegExpCreate (lit "^a$|^(b|c)$") =
      some (.alt (.seq .bol (.seq (ch 'a') .eol))
        (.seq .bol (.seq (.group 1 (.alt (ch 'b') (ch 'c'))) .eol))) ∧
    (Regex.alt (.seq .bol (.seq (ch 'a') .eol))
        (.seq .bol (.seq (.group 1 (.alt (ch 'b') (ch 'c'))) .eol))).startsWithBol = true ∧
    (Regex.alt (.seq .bol (.seq (ch 'a') .eol))
        (.seq .bol (.seq (.group 1 (.alt (ch 'b') (ch 'c'))) .eol))).endsWithEol = true := by
  decide

/-! ## Claims -/

/-- C1: for every rule list and URL, if the rule at index `i` matches the URL
and no rule declared before it does, `get_redirection_url` returns that rule's
synthesis function applied to the match array without its first element (the
whole match), whatever the rules after `i` are; the earlier rules are skipped. -/
theorem first_match_wins (mappings : List (Regex × MapFn)) (target : JSString) (i : Nat)
    (regex : Regex) (map_fn : MapFn) (result : List (Option JSString))
    (hrule : mappings[i]? = some (regex, map_fn))
    (hmatch : String_match target regex = some result)
    (hearlier : ∀ j, j < i → ∀ rule, mappings[j]? = some rule →
      String_match target rule.1 = none) :
    get_redirection_url mappings target = some (map_fn result.tail) := by
  induction mappings generalizing i with
  | nil => simp at hrule
  | cons rule later ih =>
    cases i with
    | zero =>
      simp only [List.getElem?_cons_zero, Option.some.injEq] at hrule
      subst hrule
      simp only [get_redirection_url, hmatch]
    | succ i =>
      obtain ⟨regex0, map_fn0⟩ := rule
      have h0 : String_match target regex0 = none :=
        hearlier 0 (Nat.succ_pos i) (regex0, map_fn0) (by simp)
      simp only [get_redirection_url, h0]
      refine ih i (by simpa using hrule) ?_
      intro j hj rule hr
      exact hearlier (j + 1) (Nat.succ_lt_succ hj) rule (by simpa using hr)

/-- Witness of C1 on the configured rules: the repo rule fails on a URL without
`.git`, the catch-all rule at index 1 fires. -/
theorem first_match_wins_witness :
    get_redirection_url mappings (lit "https://github12321.com/randompage") =
      some (lit "https://github.com/randompage") :=
  first_match_wins mappings (lit "https://github12321.com/randompage") 1 simple_regex
    (fun args => template (param args 0) ++ lit "://github.com/" ++ template (param args 2))
    [some (lit "https://github12321.com/randompage"), some (lit "https"),
      some (lit "github12321.com"), some (lit "randompage")]
    (by rfl) (by decide)
    (by
      intro j hj rule hr
      have hj0 : j = 0 := by omega
      subst hj0
      simp only [mappings, List.getElem?_cons_zero, Option.some.injEq] at hr
      subst hr
      decide)

/-- C2: when some rule of the list matches the reconstructed URL, the request
callback answers with status `STATUS_CODE` = 307, a `location` header holding
the target that `get_redirection_url` synthesized, and an empty body. -/
theorem matched_request_redirects (protocol : Option JSString)
    (mappings : List (Regex × MapFn)) (req : Request)
    (h : ∃ rule ∈ mappings, String_match (get_full_url protocol req) rule.1 ≠ none) :
    ∃ new_url, get_redirection_url mappings (get_full_url protocol req) = some new_url ∧
      request_callback protocol mappings req =
        { statusCode := 307, headers := [(lit "location", new_url)], body := [] } := by
  obtain ⟨new_url, hnew⟩ := get_redirection_url_some mappings _ h
  refine ⟨new_url, hnew, ?_⟩
  simp only [request_callback, hnew, STATUS_CODE]

/-- Witness of C2 on the configured rules and a repo URL. -/
theorem matched_request_redirects_witness :
    ∃ new_url,
      get_redirection_url mappings
        (get_full_url (some (lit "https")) ⟨some (lit "github12321.com"), lit "/a/b.git"⟩) =
          some new_url ∧
      request_callback (some (lit "https")) mappings
        ⟨some (lit "github12321.com"), lit "/a/b.git"⟩ =
        { statusCode := 307, headers := [(lit "location", new_url)], body := [] } :=
  matched_request_redirects (some (lit "https")) mappings
    ⟨some (lit "github12321.com"), lit "/a/b.git"⟩
    ⟨_, List.mem_cons_self _ _, by decide⟩

/-- C3: when no rule of the list matches the reconstructed URL, and so for
every request when the list is empty, `get_redirection_url` returns `null` and
the request callback answers with status 404, no header and an empty body. -/
theorem unmatched_request_not_found (protocol : Option JSString) (req : Request) :
    (∀ mappings : List (Regex × MapFn),
      (∀ rule ∈ mappings, String_match (get_full_url protocol req) rule.1 = none) →
        get_redirection_url mappings (get_full_url protocol req) = none ∧
        request_callback protocol mappings req =
          { statusCode := 404, headers := [], body := [] }) ∧
    get_redirection_url [] (get_full_url protocol req) = none ∧
    request_callback protocol [] req = { statusCode := 404, headers := [], body := [] } := by
  have key : ∀ mappings : List (Regex × MapFn),
      (∀ rule ∈ mappings, String_match (get_full_url protocol req) rule.1 = none) →
        get_redirection_url mappings (get_full_url protocol req) = none ∧
        request_callback protocol mappings req =
          { statusCode := 404, headers := [], body := [] } := by
    intro mappings h
    have hnone := get_redirection_url_none mappings _ h
    exact ⟨hnone, by simp only [request_callback, hnone]⟩
  exact ⟨key, key [] (by simp)⟩

/-- Witness of C3 on the configured rules: a request for another host. -/
theorem unmatched_request_not_found_witness :
    get_redirection_url mappings
        (get_full_url (some (lit "https")) ⟨some (lit "other.com"), lit "/a"⟩) = none ∧
      request_callback (some (lit "https")) mappings ⟨some (lit "other.com"), lit "/a"⟩ =
        { statusCode := 404, headers := [], body := [] } :=
  (unmatched_request_not_found (some (lit "https")) ⟨some (lit "other.com"), lit "/a"⟩).1
    mappings (by decide)

/-- C4: for every scheme `s`, host header `h` and path `p`, `get_full_url` is
the string `s`, then `://`, then `h`, then `p`, with nothing changed, added or
removed; being a total function it always yields a string. -/
theorem get_full_url_concat (s h p : JSString) :
    get_full_url (some s) ⟨some h, p⟩ = s ++ [58, 47, 47] ++ h ++ p ∧
    get_full_url (some s) ⟨some h, p⟩ = s ++ lit "://" ++ h ++ p ∧
    (get_full_url (some s) ⟨some h, p⟩).length = s.length + 3 + h.length + p.length := by
  refine ⟨rfl, rfl, ?_⟩
  simp only [get_full_url, template, lit, List.length_append, String.toList, List.map_cons,
    List.map_nil, List.length_cons, List.length_nil]


/-- C5 (counterexample): `match` searches the string.  The rule with the
pattern `b` fires on the URL `abc`, of which it matches only the proper
substring `b`. -/
theorem unanchored_rule_fires :
    String_match (lit "abc") (ch 'b') = some [some (lit "b")] ∧
    lit "b" ≠ lit "abc" ∧
    get_redirection_url unanchored_mappings (lit "abc") = some (lit "https://real.com/") := by
  decide

/-- C5 (amended): for every rule list in which every pattern is anchored at both
ends in each of its alternatives (`startsWithBol` and `endsWithEol`: the first
term of each alternative is `^` and the last is `$`, an unquantified group in
that place counting when each of its own alternatives is so), as the single
alternative of both configured patterns is, whenever `get_redirection_url`
returns a target the rule that fired matched the URL from its first to its last
code unit: element 0 of the match array is the whole URL, and the target is the
rule's synthesis function applied to the remaining elements.  A pattern text
that merely begins with `^` and ends with `$`, such as `^a|b$`, is not meant
(`half_anchored_rule_fires`). -/
theorem anchored_rule_matches_whole_url (mappings : List (Regex × MapFn))
    (target new_url : JSString)
    (hanchored : ∀ rule ∈ mappings,
      rule.1.startsWithBol = true ∧ rule.1.endsWithEol = true)
    (h : get_redirection_url mappings target = some new_url) :
    ∃ rule ∈ mappings, ∃ captures,
      String_match target rule.1 = some (some target :: captures) ∧
      new_url = rule.2 captures := by
  obtain ⟨rule, hr, result, hres, hnew⟩ := get_redirection_url_fired mappings target new_url h
  obtain ⟨captures, rfl⟩ :=
    String_match_whole rule.1 (hanchored rule hr).1 (hanchored rule hr).2 target result hres
  exact ⟨rule, hr, captures, hres, hnew⟩

/-- Witness of C5 (amended) on the configured rules. -/
theorem anchored_rule_matches_whole_url_witness :
    ∃ rule ∈ mappings, ∃ captures,
      String_match (lit "https://github12321.com/a") rule.1 =
        some (some (lit "https://github12321.com/a") :: captures) ∧
      lit "https://github.com/a" = rule.2 captures :=
  anchored_rule_matches_whole_url mappings (lit "https://github12321.com/a")
    (lit "https://github.com/a") (by decide) (by decide)

/-- C6: with the rule list of scenario 1 and the scheme `https`, for every
non-empty project and repo without `/` and without line terminator, the request
with host `example.com` and path `/<project>/<repo>.git` gets status 307 and
`location: https://real.com/<project>/<repo>`; the captured repo does not
include `.git`.  In particular `/foo/bar.git` gives `https://real.com/foo/bar`. -/
theorem example_repo_redirect :
    (∀ project repo : JSString,
      project ≠ [] → repo ≠ [] →
      (∀ c ∈ project, c ≠ 47 ∧ isLineTerminator c = false) →
      (∀ c ∈ repo, c ≠ 47 ∧ isLineTerminator c = false) →
      String_match
          (get_full_url (some (lit "https"))
            ⟨some (lit "example.com"), lit "/" ++ project ++ lit "/" ++ repo ++ lit ".git"⟩)
          example_regex =
        some [some (lit "https://example.com/" ++ project ++ lit "/" ++ repo ++ lit ".git"),
          some project, some repo] ∧
      request_callback (some (lit "https")) example_mappings
          ⟨some (lit "example.com"), lit "/" ++ project ++ lit "/" ++ repo ++ lit ".git"⟩ =
        { statusCode := 307,
          headers := [(lit "location", lit "https://real.com/" ++ project ++ lit "/" ++ repo)],
          body := [] }) ∧
    request_callback (some (lit "https")) example_mappings
        ⟨some (lit "example.com"), lit "/foo/bar.git"⟩ =
      { statusCode := 307, headers := [(lit "location", lit "https://real.com/foo/bar")],
        body := [] } := by
  refine ⟨?_, by decide⟩
  intro project repo hp0 hr0 hp hr
  have hurl : get_full_url (some (lit "https"))
      ⟨some (lit "example.com"), lit "/" ++ project ++ lit "/" ++ repo ++ lit ".git"⟩ =
      lit "https://example.com/" ++ project ++ lit "/" ++ repo ++ lit ".git" := by
    simp [get_full_url, template, lit]
  have hmatch := example_match_repo_url project repo
    ⟨hp0, fun c hc => (hp c hc).1, fun c hc => (hp c hc).2⟩
    ⟨hr0, fun c hc => (hr c hc).1, fun c hc => (hr c hc).2⟩
  rw [hurl]
  refine ⟨hmatch, ?_⟩
  simp only [request_callback, hurl, example_mappings, get_redirection_url, hmatch, STATUS_CODE,
    List.tail_cons, param, template, List.get?_cons_zero, List.get?_cons_succ]

/-- Witness of C6: project `foo`, repo `bar`. -/
theorem example_repo_redirect_witness :
    String_match
        (get_full_url (some (lit "https"))
          ⟨some (lit "example.com"), lit "/" ++ lit "foo" ++ lit "/" ++ lit "bar" ++ lit ".git"⟩)
        example_regex =
      some [some (lit "https://example.com/" ++ lit "foo" ++ lit "/" ++ lit "bar" ++ lit ".git"),
        some (lit "foo"), some (lit "bar")] ∧
    request_callback (some (lit "https")) example_mappings
        ⟨some (lit "example.com"), lit "/" ++ lit "foo" ++ lit "/" ++ lit "bar" ++ lit ".git"⟩ =
      { statusCode := 307,
        headers := [(lit "location", lit "https://real.com/" ++ lit "foo" ++ lit "/" ++ lit "bar")],
        body := [] } :=
  example_repo_redirect.1 (lit "foo") (lit "bar") (by decide) (by decide) (by decide)
    (by decide)

/-- C9: the scheme comes from a table of two entries, port 80 giving `http` and
port 443 giving `https`; for every other port the scheme and the server
constructor are `undefined`, and the script ends with an error (calling
`create_server` throws) before `server.listen` is reached, whatever the key and
certificate files are and whatever `https.createServer` would accept. -/
theorem only_ports_80_and_443 :
    protocol 80 = some (lit "http") ∧ protocol 443 = some (lit "https") ∧
    ∀ port : Nat, port ≠ 80 → port ≠ 443 →
      protocol port = none ∧ create_server (protocol port) = none ∧
      ∀ (readFileSync : Option JSString → Option JSString)
        (acceptsKeyMaterial : JSString → JSString → Bool) (key_path cert_path : Option JSString),
        startup port readFileSync acceptsKeyMaterial key_path cert_path =
          .error .notAFunction := by
  refine ⟨rfl, rfl, ?_⟩
  intro port h80 h443
  have hp : protocol port = none := by simp [protocol, h80, h443]
  have hc : create_server (protocol port) = none := by rw [hp]; decide
  refine ⟨hp, hc, ?_⟩
  intro readFileSync acceptsKeyMaterial key_path cert_path
  simp only [startup, hc]

/-- Witness of C9: port 8080. -/
theorem only_ports_80_and_443_witness :
    protocol 8080 = none ∧ create_server (protocol 8080) = none ∧
      ∀ (readFileSync : Option JSString → Option JSString)
        (acceptsKeyMaterial : JSString → JSString → Bool) (key_path cert_path : Option JSString),
        startup 8080 readFileSync acceptsKeyMaterial key_path cert_path =
          .error .notAFunction :=
  only_ports_80_and_443.2.2 8080 (by decide) (by decide)


/-- C7 (counterexample): a host header other than `github12321.com` that is
redirected.  The rules see only the concatenation of scheme, host header and
path. -/
theorem other_host_redirected :
    lit "github12321.com/x" ≠ lit "github12321.com" ∧
    request_callback (protocol 443) mappings ⟨some (lit "github12321.com/x"), lit "/y"⟩ =
      { statusCode := 307, headers := [(lit "location", lit "https://github.com/x/y")],
        body := [] } := by
  decide

/-- C7 (amended): with the configured mappings and whatever the port, every
request whose host header followed by its path does not begin with
`github12321`, one code unit and `com/` matches no rule and gets a 404 response
without `location` header. -/
theorem other_host_not_found (port : Nat) (req : Request)
    (h : ¬ ∃ c rest, template req.host ++ req.url = lit "github12321" ++ [c] ++ lit "com/" ++ rest) :
    get_redirection_url mappings (get_full_url (protocol port) req) = none ∧
    request_callback (protocol port) mappings req =
      { statusCode := 404, headers := [], body := [] } := by
  have hnone : get_redirection_url mappings (get_full_url (protocol port) req) = none := by
    cases hres : get_redirection_url mappings (get_full_url (protocol port) req) with
    | none => rfl
    | some new_url =>
      exfalso
      obtain ⟨scheme, domain, rest, hs, hd, _, hurl, _⟩ := redirect_shape _ _ hres
      have hx : template req.host ++ req.url = domain ++ lit "/" ++ rest := by
        apply scheme_cancel port scheme domain _ rest hs hd
        rw [← hurl]
        simp only [get_full_url, List.append_assoc]
      obtain ⟨c, _, rfl⟩ := hd
      exact h ⟨c, rest, by rw [hx]; simp [lit]⟩
  exact ⟨hnone, by simp only [request_callback, hnone]⟩

/-- Witness of C7 (amended): host `other.com`, path `/a`, port 443. -/
theorem other_host_not_found_witness :
    get_redirection_url mappings
        (get_full_url (protocol 443) ⟨some (lit "other.com"), lit "/a"⟩) = none ∧
    request_callback (protocol 443) mappings ⟨some (lit "other.com"), lit "/a"⟩ =
      { statusCode := 404, headers := [], body := [] } :=
  other_host_not_found 443 ⟨some (lit "other.com"), lit "/a"⟩ (by
    rintro ⟨c, rest, h⟩
    simp [template, lit] at h)

/-- C8: with the configured mappings, for scheme `http` or `https`, non-empty
project and repo without `/` and without line terminator, and a tail that is
empty or starts with `/` and has no line terminator, the URL
`<scheme>://github12321.com/<project>/<repo>.git<tail>` is sent to
`<scheme>://github.com/<project>/<repo>.git<tail>`.  When the tail is absent
the fifth capture group does not participate (it is `undefined` in the match
array), and the synthesis function of the repo rule appends nothing for a tail
capture that is `undefined`. -/
theorem repo_url_redirect :
    (∀ scheme project repo tail : JSString,
      (scheme = lit "http" ∨ scheme = lit "https") →
      project ≠ [] → repo ≠ [] →
      (∀ c ∈ project, c ≠ 47 ∧ isLineTerminator c = false) →
      (∀ c ∈ repo, c ≠ 47 ∧ isLineTerminator c = false) →
      (tail = [] ∨ (tail.head? = some 47 ∧ ∀ c ∈ tail, isLineTerminator c = false)) →
      get_redirection_url mappings
          (scheme ++ lit "://github12321.com/" ++ project ++ lit "/" ++ repo ++ lit ".git" ++
            tail) =
        some (scheme ++ lit "://github.com/" ++ project ++ lit "/" ++ repo ++ lit ".git" ++
          tail)) ∧
    (∀ scheme project repo : JSString,
      (scheme = lit "http" ∨ scheme = lit "https") →
      project ≠ [] → repo ≠ [] →
      (∀ c ∈ project, c ≠ 47 ∧ isLineTerminator c = false) →
      (∀ c ∈ repo, c ≠ 47 ∧ isLineTerminator c = false) →
      String_match
          (scheme ++ lit "://github12321.com/" ++ project ++ lit "/" ++ repo ++ lit ".git")
          repo_regex =
        some [some (scheme ++ lit "://github12321.com/" ++ project ++ lit "/" ++ repo ++
            lit ".git"),
          some scheme, some (lit "github12321.com"), some project, some (repo ++ lit ".git"),
          none]) ∧
    (∀ (map_fn : MapFn) (scheme domain project repo : JSString),
      (mappings.map Prod.snd).head? = some map_fn →
      map_fn [some scheme, some domain, some project, some repo, none] =
        scheme ++ lit "://github.com/" ++ project ++ lit "/" ++ repo) := by
  refine ⟨?_, ?_, ?_⟩
  · intro scheme project repo tail hs hp0 hr0 hp hr htail
    have hurl : scheme ++ lit "://github12321.com/" ++ project ++ lit "/" ++ repo ++ lit ".git" ++
        tail = scheme ++ lit "://" ++ lit "github12321.com" ++ lit "/" ++ project ++ lit "/" ++
          (repo ++ lit ".git") ++ tail := by
      simp [lit]
    have hdom : IsDomain (lit "github12321.com") := ⟨46, by decide, by decide⟩
    have htl : NoLineTerminator tail := by
      rcases htail with rfl | ⟨_, h⟩
      · intro c hc; simp at hc
      · exact h
    obtain ⟨arr, harr⟩ := repo_match_of_shape _ scheme (lit "github12321.com") project
      (repo ++ lit ".git") tail hs hdom ⟨hp0, fun c hc => (hp c hc).1⟩
      ⟨repo, 46, [], hr0, fun c hc => (hr c hc).1, by decide, Or.inl rfl, by simp [lit]⟩
      htl hurl
    have hres : get_redirection_url mappings
        (scheme ++ lit "://github12321.com/" ++ project ++ lit "/" ++ repo ++ lit ".git" ++ tail)
        = some ((fun args : List (Option JSString) =>
          template (param args 0) ++ lit "://github.com/" ++ template (param args 2) ++ lit "/"
            ++ template (param args 3) ++ template (orEmpty (param args 4))) arr.tail) := by
      simp only [mappings, get_redirection_url, harr]
    obtain ⟨scheme2, domain2, rest2, hs2, hd2, _, hurl2, hnew⟩ := redirect_shape _ _ hres
    have hurl3 : scheme ++ lit "://" ++ lit "github12321.com" ++ lit "/" ++
        (project ++ lit "/" ++ (repo ++ lit ".git") ++ tail) =
        scheme2 ++ lit "://" ++ domain2 ++ lit "/" ++ rest2 := by
      rw [← hurl2, hurl]
      simp only [List.append_assoc]
    obtain ⟨rfl, _, rfl⟩ := shape_unique _ _ _ _ _ _ hs hs2 hdom hd2 hurl3
    rw [hres, hnew]
    simp only [List.append_assoc]
  · intro scheme project repo hs hp0 hr0 hp hr
    exact repo_match_no_tail scheme project repo hs ⟨hp0, fun c hc => (hp c hc).1⟩
      ⟨hr0, fun c hc => (hr c hc).1⟩
  · intro map_fn scheme domain project repo hfn
    simp only [mappings, List.map_cons, List.head?_cons, Option.some.injEq] at hfn
    subst hfn
    simp [param, template, orEmpty]

/-- Witness of C8: `https://github12321.com/foo/bar.git`, without tail. -/
theorem repo_url_redirect_witness :
    get_redirection_url mappings
        (lit "https" ++ lit "://github12321.com/" ++ lit "foo" ++ lit "/" ++ lit "bar" ++
          lit ".git" ++ []) =
      some (lit "https" ++ lit "://github.com/" ++ lit "foo" ++ lit "/" ++ lit "bar" ++
        lit ".git" ++ []) :=
  repo_url_redirect.1 (lit "https") (lit "foo") (lit "bar") [] (Or.inr rfl) (by decide)
    (by decide) (by decide) (by decide) (Or.inl rfl)

/-- C10: with the configured mappings, whenever `get_redirection_url` returns a
target, the URL is `<scheme>://<host>/<rest>` with scheme `http` or `https`, a
host of 15 code units that the pattern piece `github12321.com` matches, and a
non-empty rest, and the target is `<scheme>://github.com/<rest>`; each rule on
its own obeys the same law, so the two rules give one target for a URL that
both match. -/
theorem redirect_keeps_scheme_and_rest :
    (∀ url target : JSString, get_redirection_url mappings url = some target →
      ∃ scheme host rest,
        (scheme = lit "http" ∨ scheme = lit "https") ∧
        host.length = 15 ∧
        (∃ c, isLineTerminator c = false ∧ host = lit "github12321" ++ [c] ++ lit "com") ∧
        rest ≠ [] ∧
        url = scheme ++ lit "://" ++ host ++ lit "/" ++ rest ∧
        target = scheme ++ lit "://github.com/" ++ rest) ∧
    (∀ url target1 target2 : JSString,
      get_redirection_url (mappings.take 1) url = some target1 →
      get_redirection_url (mappings.drop 1) url = some target2 →
      target1 = target2) := by
  have hlen : ∀ d, IsDomain d → d.length = 15 := by
    rintro d ⟨c, _, rfl⟩
    simp [lit]
  constructor
  · intro url target h
    obtain ⟨scheme, domain, rest, hs, hd, hr, hurl, hnew⟩ := redirect_shape url target h
    exact ⟨scheme, domain, rest, hs, hlen domain hd, hd, hr, hurl, hnew⟩
  · intro url target1 target2 h1 h2
    obtain ⟨s1, d1, r1, hs1, hd1, _, hu1, rfl⟩ := rule_shape url target1 _ h1
      (fun rule hr => List.mem_of_mem_take hr)
    obtain ⟨s2, d2, r2, hs2, hd2, _, hu2, rfl⟩ := rule_shape url target2 _ h2
      (fun rule hr => List.mem_of_mem_drop hr)
    obtain ⟨rfl, _, rfl⟩ := shape_unique _ _ _ _ _ _ hs1 hs2 hd1 hd2 (hu1.symm.trans hu2)
    rfl

/-- Witness of C10: a URL that only the catch-all rule matches. -/
theorem redirect_keeps_scheme_and_rest_witness :
    ∃ scheme host rest,
      (scheme = lit "http" ∨ scheme = lit "https") ∧
      host.length = 15 ∧
      (∃ c, isLineTerminator c = false ∧ host = lit "github12321" ++ [c] ++ lit "com") ∧
      rest ≠ [] ∧
      lit "http://github12321.com/a?b" = scheme ++ lit "://" ++ host ++ lit "/" ++ rest ∧
      lit "http://github.com/a?b" = scheme ++ lit "://github.com/" ++ rest :=
  redirect_keeps_scheme_and_rest.1 (lit "http://github12321.com/a?b")
    (lit "http://github.com/a?b") (by decide)

end Redirector
